import Mathlib

/-
  Verification development for the tson-js codec (src/index.ts).

  The development shallowly embeds the resilient character-level parser
  (class Parser) and the serializer (class Stringifier) of src/index.ts.
  JavaScript strings are modelled as `List Char`; JavaScript numbers are
  modelled by `JSNum` (finite values as exact rationals, plus NaN and the
  infinities); JavaScript values are modelled by the mutual inductive
  `JSValue`/`JSArr`/`JSObj`.  Loops of the source are embedded as
  fuel-indexed structural recursions: helpers that provably terminate get
  a wrapper that supplies more fuel than the loop can consume, while the
  mutually recursive parser productions keep an explicit fuel parameter,
  because the source parser does not terminate on every input (`none`
  models divergence / fuel exhaustion).
-/

namespace TSON

/-- Character-class test for the regex NAME_START_REGEX = /^[a-zA-Z_$]$/
    (src/index.ts line 322). -/
def isNameStart (c : Char) : Bool :=
  let n := c.toNat
  (decide (97 ≤ n) && decide (n ≤ 122)) || (decide (65 ≤ n) && decide (n ≤ 90)) ||
    n == 95 || n == 36

/-- Character-class test for the regex NAME_PART_REGEX = /^[a-zA-Z0-9_.\-$]$/
    (src/index.ts line 323). -/
def isNamePart (c : Char) : Bool :=
  let n := c.toNat
  (decide (97 ≤ n) && decide (n ≤ 122)) || (decide (65 ≤ n) && decide (n ≤ 90)) ||
    (decide (48 ≤ n) && decide (n ≤ 57)) || n == 95 || n == 46 || n == 45 || n == 36

/-- The JavaScript regex whitespace class \s:
    [\t\n\v\f\r    -     　﻿]. -/
def jsWhitespaceChar (c : Char) : Bool :=
  let n := c.toNat
  n == 9 || n == 10 || n == 11 || n == 12 || n == 13 || n == 32 ||
    n == 160 || n == 5760 || (decide (8192 ≤ n) && decide (n ≤ 8202)) ||
    n == 8232 || n == 8233 || n == 8239 || n == 8287 || n == 12288 || n == 65279

/-- Character-class test for NUMBER_TERMINATOR_REGEX = /^[\s,\}\]\"\:;]$/
    (src/index.ts line 338): whitespace, comma, closing brace, closing
    bracket, double quote, colon, semicolon.  Note that the opening brace
    is NOT in this class. -/
def isNumberTerminator (c : Char) : Bool :=
  jsWhitespaceChar c || c == ',' || c == '\x7d' || c == ']' || c == '"' ||
    c == ':' || c == ';'

/-- Modelled from the spec:  the numeric-terminator set as the spec states it
    ("a bare numeric or boolean scan stops at `\x7b , \x7d ] " : ; \x7d` or
    whitespace"), i.e. INCLUDING the opening brace.  This definition follows
    the spec's words and exists only to be compared with `isNumberTerminator`,
    which is translated from the source. -/
def specNumberTerminator (c : Char) : Bool :=
  jsWhitespaceChar c || c == '\x7b' || c == ',' || c == '\x7d' || c == ']' ||
    c == '"' || c == ':' || c == ';'

/-- Decimal digit test, as used by the JavaScript number-parsing builtins. -/
def isDigitChar (c : Char) : Bool :=
  decide (48 ≤ c.toNat) && decide (c.toNat ≤ 57)

def digitChar (n : Nat) : Char := Char.ofNat (48 + n)

def natToCharsAux : Nat → Nat → List Char
  | 0, _ => []
  | fuel + 1, n => if n < 10 then [digitChar n] else natToCharsAux fuel (n / 10) ++ [digitChar (n % 10)]

/-- Decimal representation of a natural number (the digits JavaScript
    template interpolation produces for a non-negative integer). -/
def natToChars (n : Nat) : List Char := natToCharsAux (n + 1) n

/-- Decimal representation of an integer, as produced by JavaScript
    template interpolation of an integer-valued number. -/
def intToChars (i : Int) : List Char :=
  if i < 0 then '-' :: natToChars i.natAbs else natToChars i.natAbs

/-- Bool test that `pat` is a (character-wise) prefix of `l`. -/
def startsWithChars : List Char → List Char → Bool
  | [], _ => true
  | _ :: _, [] => false
  | p :: ps, c :: cs => p == c && startsWithChars ps cs

def replaceAllAux : Nat → List Char → List Char → List Char → List Char
  | 0, _, _, l => l
  | fuel + 1, pat, rep, l =>
    match l with
    | [] => []
    | c :: rest =>
      if pat ≠ [] ∧ startsWithChars pat (c :: rest) = true then
        rep ++ replaceAllAux fuel pat rep ((c :: rest).drop pat.length)
      else
        c :: replaceAllAux fuel pat rep rest

/-- Global string replacement, leftmost-first and non-overlapping, the
    semantics of JavaScript String.prototype.replace with a /g regex whose
    pattern is a fixed character sequence.  The fuel wrapper supplies more
    fuel than the scan can consume (each step disposes of at least one
    character). -/
def replaceAll (pat rep l : List Char) : List Char :=
  replaceAllAux (l.length + 1) pat rep l

/-- First-occurrence-only string replacement, the semantics of JavaScript
    String.prototype.replace with a plain-string pattern (used by the source
    for the backspace character: `.replace("\b", ...)`, src/index.ts
    line 505). -/
def replaceFirst (pat rep : List Char) : List Char → List Char
  | [] => []
  | c :: rest =>
    if pat ≠ [] ∧ startsWithChars pat (c :: rest) = true then
      rep ++ (c :: rest).drop pat.length
    else
      c :: replaceFirst pat rep rest

/-- The unescape chain applied by Parser.parseString to the scanned string
    body (src/index.ts lines 303-309):
    .replace(/\\/g, "\\")   -- replaces a backslash with a backslash (no-op)
    .replace(/\\"/g, &quot;)  -- backslash double-quote to double-quote
    .replace(/\\n/g, newline) .replace(/\\r/g, cr) .replace(/\\t/g, tab). -/
def unescapeTSON (l : List Char) : List Char :=
  replaceAll ['\\', 't'] ['\t']
    (replaceAll ['\\', 'r'] ['\r']
      (replaceAll ['\\', 'n'] ['\n']
        (replaceAll ['\\', '"'] ['"']
          (replaceAll ['\\'] ['\\'] l))))

/-- The escape chain applied by Stringifier.stringify / stringifyValue to a
    string value (src/index.ts lines 498-506 and 616-624): globally escape
    backslash, double quote, newline, carriage return, tab, form feed, then
    the FIRST backspace only (plain-string pattern, the source comments
    "/\b not working"), then vertical tab. -/
def escapeStringTSON (l : List Char) : List Char :=
  replaceAll ['\x0b'] ['\\', 'v']
    (replaceFirst ['\x08'] ['\\', 'b']
      (replaceAll ['\x0c'] ['\\', 'f']
        (replaceAll ['\t'] ['\\', 't']
          (replaceAll ['\r'] ['\\', 'r']
            (replaceAll ['\n'] ['\\', 'n']
              (replaceAll ['"'] ['\\', '"']
                (replaceAll ['\\'] ['\\', '\\'] l)))))))

/-- JavaScript numbers: finite values modelled as exact rationals (exact for
    every decimal literal, and every finite double is a rational), plus NaN
    and the two infinities. -/
inductive JSNum where
  | nan
  | inf
  | ninf
  | num (q : ℚ)
deriving DecidableEq, Repr

def natOfDigits (l : List Char) : Nat :=
  l.foldl (fun a c => a * 10 + (c.toNat - 48)) 0

/-- JavaScript parseInt(str, 10): skip leading whitespace, optional sign,
    then decimal digits; NaN when no digit follows. -/
def jsParseInt (cs : List Char) : JSNum :=
  let t := cs.dropWhile jsWhitespaceChar
  let signed : Bool × List Char :=
    match t with
    | '-' :: rest => (true, rest)
    | '+' :: rest => (false, rest)
    | rest => (false, rest)
  let digits := signed.2.takeWhile isDigitChar
  if digits = [] then .nan
  else
    let n : Int := Int.ofNat (natOfDigits digits)
    .num ((if signed.1 then -n else n : Int) : ℚ)

/-- JavaScript parseFloat: skip leading whitespace, then take the longest
    prefix that is a signed decimal literal (digits, optional fraction,
    optional exponent) or Infinity; NaN when no such prefix exists. -/
def jsParseFloat (cs : List Char) : JSNum :=
  let t := cs.dropWhile jsWhitespaceChar
  let signed : Bool × List Char :=
    match t with
    | '-' :: rest => (true, rest)
    | '+' :: rest => (false, rest)
    | rest => (false, rest)
  let neg := signed.1
  let body := signed.2
  if startsWithChars (("Infinity").toList) body then
    if neg then .ninf else .inf
  else
    let intDigits := body.takeWhile isDigitChar
    let afterInt := body.drop intDigits.length
    let fracDigits : List Char :=
      match afterInt with
      | '.' :: rest => rest.takeWhile isDigitChar
      | _ => []
    let afterFrac :=
      match afterInt with
      | '.' :: rest => rest.drop fracDigits.length
      | rest => rest
    if intDigits = [] ∧ fracDigits = [] then .nan
    else
      let mantissa : ℚ :=
        (Int.ofNat (natOfDigits intDigits) : ℚ) +
          (Int.ofNat (natOfDigits fracDigits) : ℚ) / ((10 : ℚ) ^ fracDigits.length)
      let expPart : Option (Int) :=
        match afterFrac with
        | 'e' :: rest | 'E' :: rest =>
          let esigned : Bool × List Char :=
            match rest with
            | '-' :: r2 => (true, r2)
            | '+' :: r2 => (false, r2)
            | r2 => (false, r2)
          let edigits := esigned.2.takeWhile isDigitChar
          if edigits = [] then none
          else some (if esigned.1 then -(Int.ofNat (natOfDigits edigits)) else Int.ofNat (natOfDigits edigits))
        | _ => none
      let mag : ℚ :=
        match expPart with
        | some e => mantissa * (10 : ℚ) ^ e
        | none => mantissa
      .num (if neg then -mag else mag)

/-- JavaScript Number.isInteger: false for NaN and the infinities, and for a
    finite value true exactly when it has no fractional part. -/
def jsIsInteger : JSNum → Bool
  | .num q => q.den == 1
  | _ => false

def stripFactorAux : Nat → Nat → Nat → Nat × Nat
  | 0, _, n => (0, n)
  | fuel + 1, p, n =>
    if n % p = 0 ∧ n ≠ 0 ∧ 2 ≤ p then
      let r := stripFactorAux fuel p (n / p)
      (r.1 + 1, r.2)
    else (0, n)

/-- Number of times `p` divides `n`, together with the remaining cofactor. -/
def stripFactor (p n : Nat) : Nat × Nat := stripFactorAux (n + 1) p n

/-- The characters JavaScript template interpolation produces for a number
    (`${value}`).  Integral finite values print as plain decimal integers.
    A non-integral finite double always has a finite decimal expansion
    (its denominator is a power of two); we print that exact shortest
    expansion, which is what JavaScript prints for every decimal literal
    that is exactly representable.  Rationals whose denominator has a prime
    factor other than 2 or 5 are not JavaScript doubles; for totality they
    fall back to printing the numerator. -/
def jsNumToString : JSNum → List Char
  | .nan => ("NaN").toList
  | .inf => ("Infinity").toList
  | .ninf => ("-Infinity").toList
  | .num q =>
    if q.den = 1 then intToChars q.num
    else
      let a := (stripFactor 2 q.den).1
      let d2 := (stripFactor 2 q.den).2
      let b := (stripFactor 5 d2).1
      let rem := (stripFactor 5 d2).2
      if rem ≠ 1 then intToChars q.num
      else
        let k := max a b
        let m := q.num.natAbs * (10 ^ k / q.den)
        let digits := natToChars m
        let padded := List.replicate (k + 1 - digits.length) '0' ++ digits
        let intPart := padded.take (padded.length - k)
        let fracPart := padded.drop (padded.length - k)
        (if q.num < 0 then ['-'] else []) ++ intPart ++ ['.'] ++ fracPart

mutual
/-- The JavaScript value domain produced and consumed by the codec
    (TSONValue in src/types.ts: string, number, boolean, null, object,
    array; `vundef` models the JavaScript value undefined, which the
    serializer also handles). -/
inductive JSValue where
  | vnull
  | vundef
  | vbool (b : Bool)
  | vnum (n : JSNum)
  | vstr (s : List Char)
  | varr (a : JSArr)
  | vobj (o : JSObj)
deriving DecidableEq, Repr
/-- JavaScript arrays of `JSValue` (ordered). -/
inductive JSArr where
  | nil
  | cons (hd : JSValue) (tl : JSArr)
deriving DecidableEq, Repr
/-- JavaScript plain objects as ordered key/value sequences (keys unique,
    insertion order retained). -/
inductive JSObj where
  | nil
  | cons (key : List Char) (val : JSValue) (tl : JSObj)
deriving DecidableEq, Repr
end

/-- Property assignment `object[key] = value`: overwrite in place when the
    key is present, otherwise append (JavaScript insertion-order
    semantics). -/
def objSetKey : JSObj → List Char → JSValue → JSObj
  | .nil, k, v => .cons k v .nil
  | .cons k0 v0 t, k, v =>
    if k0 = k then .cons k0 v t else .cons k0 v0 (objSetKey t k v)

/-- Property read `obj[key]`; a missing key reads as undefined. -/
def objGet : JSObj → List Char → JSValue
  | .nil, _ => .vundef
  | .cons k0 v t, k => if k0 = k then v else objGet t k

def objRawKeys : JSObj → List (List Char)
  | .nil => []
  | .cons k _ t => k :: objRawKeys t

/-- Append to the end of an array (Array.prototype.push). -/
def arrPush : JSArr → JSValue → JSArr
  | .nil, v => .cons v .nil
  | .cons h t, v => .cons h (arrPush t v)

def charsToNat (l : List Char) : Nat := natOfDigits l

/-- Canonical array-index test for a property key (the keys JavaScript
    enumerates first, in ascending numeric order): "0", or digits with no
    leading zero, with numeric value below 2^32 - 1. -/
def isArrayIndexKey (k : List Char) : Bool :=
  match k with
  | [] => false
  | c :: rest =>
    (c == '0' && rest.isEmpty) ||
      (c != '0' && isDigitChar c && rest.all isDigitChar &&
        decide (charsToNat (c :: rest) < 4294967295))

def insertKeyAsc (k : List Char) : List (List Char) → List (List Char)
  | [] => [k]
  | x :: xs => if charsToNat k < charsToNat x then k :: x :: xs else x :: insertKeyAsc k xs

def sortKeysAsc : List (List Char) → List (List Char)
  | [] => []
  | x :: xs => insertKeyAsc x (sortKeysAsc xs)

/-- Object.keys(obj): canonical array-index keys first in ascending numeric
    order, then the remaining string keys in insertion order. -/
def objKeysJS (o : JSObj) : List (List Char) :=
  let ks := objRawKeys o
  sortKeysAsc (ks.filter isArrayIndexKey) ++ ks.filter (fun k => !isArrayIndexKey k)

/-- Cursor record of the parser: absolute position plus 1-based column and
    line (src/index.ts lines 26-30). -/
structure Cursor where
  position : Nat
  column : Nat
  line : Nat
deriving DecidableEq, Repr

/-- copyCursor (src/index.ts lines 32-38); Lean values are immutable, so the
    defensive copy is the identity on the record value. -/
def copyCursor (c : Cursor) : Cursor := ⟨c.position, c.column, c.line⟩

/-- TSONParseError (src/index.ts lines 40-61): a message with a start cursor
    and an optional end cursor, both copied on construction. -/
structure TSONParseError where
  message : List Char
  cursor : Cursor
  endCursor : Option Cursor
deriving DecidableEq, Repr

/-- The mutable scanning state owned by one Parser instance: the input, the
    live cursor, and the accumulated diagnostics (src/index.ts lines
    84-95). -/
structure PState where
  input : List Char
  cursor : Cursor
  errors : List TSONParseError
deriving DecidableEq, Repr

/-- Parser.isAtEnd (src/index.ts lines 333-335). -/
def atEnd (s : PState) : Bool := decide (s.input.length ≤ s.cursor.position)

/-- Parser.peek (src/index.ts lines 430-433): the NUL character stands for
    looking past the end of the input. -/
def peek (s : PState) : Char :=
  if s.input.length ≤ s.cursor.position then '\x00'
  else s.input.getD s.cursor.position '\x00'

/-- Parser.peekNext (src/index.ts lines 435-438). -/
def peekNext (s : PState) : Char :=
  if s.input.length ≤ s.cursor.position + 1 then '\x00'
  else s.input.getD (s.cursor.position + 1) '\x00'

/-- Parser.advance (src/index.ts lines 418-428): returns the character read
    (none when already past the end, where charAt yields the empty string)
    and bumps the cursor, tracking line/column across newlines. -/
def advance (s : PState) : Option Char × PState :=
  let c := s.input.get? s.cursor.position
  let cur := s.cursor
  let cur2 : Cursor :=
    if c = some '\n' then ⟨cur.position + 1, 1, cur.line + 1⟩
    else ⟨cur.position + 1, cur.column + 1, cur.line⟩
  (c, ⟨s.input, cur2, s.errors⟩)

/-- Parser.addError (src/index.ts lines 112-114). -/
def addError (s : PState) (e : TSONParseError) : PState :=
  ⟨s.input, s.cursor, s.errors ++ [e]⟩

def optList : Option Char → List Char
  | some c => [c]
  | none => []

def skipWhitespaceAux : Nat → PState → PState
  | 0, s => s
  | fuel + 1, s =>
    let c := peek s
    if c == ',' || c == ' ' || c == '\n' || c == '\r' || c == '\t' then
      skipWhitespaceAux fuel (advance s).2
    else s

/-- Parser.skipWhitespace (src/index.ts lines 97-110): commas count as
    whitespace.  The loop consumes at most the rest of the input, so the
    fuel wrapper is exact. -/
def skipWhitespace (s : PState) : PState :=
  skipWhitespaceAux (s.input.length + 1) s

def parseNameAux : Nat → PState → List Char × PState
  | 0, s => ([], s)
  | fuel + 1, s =>
    if isNamePart (peek s) then
      let st := advance s
      let r := parseNameAux fuel st.2
      (optList st.1 ++ r.1, r.2)
    else ([], s)

/-- Parser.parseName (src/index.ts lines 314-320): collect characters of the
    name-part class. -/
def parseName (s : PState) : List Char × PState :=
  parseNameAux (s.input.length + 1) s

/-- Message of the unterminated-string diagnostic (src/index.ts line 287). -/
def unterminatedStringMessage (c : Cursor) : List Char :=
  ("Unterminated string at line ").toList ++ natToChars c.line ++
    (", column ").toList ++ natToChars c.column

def parseStringScanAux : Nat → Cursor → PState → Option (List Char) × PState
  | 0, _, s => (some [], s)
  | fuel + 1, startCursor, s =>
    if peek s ≠ '"' ∧ atEnd s = false then
      if peek s = '\n' then
        (none,
          addError s ⟨unterminatedStringMessage startCursor, copyCursor startCursor,
            some (copyCursor s.cursor)⟩)
      else if peek s = '\\' ∧ peekNext s = '"' then
        let st := advance s
        let st2 := advance st.2
        let r := parseStringScanAux fuel startCursor st2.2
        (r.1.map (fun buf => optList st.1 ++ buf), r.2)
      else
        let st := advance s
        let r := parseStringScanAux fuel startCursor st.2
        (r.1.map (fun buf => optList st.1 ++ buf), r.2)
    else (some [], s)

/-- Parser.parseString (src/index.ts lines 280-312), called after the opening
    double quote was consumed.  The scan loop pushes the backslash of a
    backslash-quote pair but discards the quote itself; on a raw newline it
    records the unterminated-string diagnostic and returns the empty string
    without consuming further input.  A successful scan consumes the closing
    quote and applies the unescape chain. -/
def parseString (s : PState) : List Char × PState :=
  let startCursor := copyCursor s.cursor
  match parseStringScanAux (s.input.length + 1) startCursor s with
  | (none, s2) => ([], s2)
  | (some buf, s2) => (unescapeTSON buf, (advance s2).2)

def scanNumberAux : Nat → PState → List Char × PState
  | 0, s => ([], s)
  | fuel + 1, s =>
    if isNumberTerminator (peek s) = false ∧ atEnd s = false then
      let st := advance s
      let r := scanNumberAux fuel st.2
      (optList st.1 ++ r.1, r.2)
    else ([], s)

/-- The shared scan loop of Parser.parseFloat, Parser.parseInt and the
    invalid-boolean recovery (src/index.ts lines 345-359 and 403-406):
    consume characters until a number-terminator character or the end of the
    input. -/
def scanNumberChars (s : PState) : List Char × PState :=
  scanNumberAux (s.input.length + 1) s

/-- Parser.parseFloat (src/index.ts lines 345-351): scan to a terminator and
    apply the JavaScript parseFloat builtin. -/
def parseFloatMethod (s : PState) : JSValue × PState :=
  let r := scanNumberChars s
  (.vnum (jsParseFloat r.1), r.2)

/-- Parser.parseInt (src/index.ts lines 353-359): scan to a terminator and
    apply the JavaScript parseInt builtin with radix 10. -/
def parseIntMethod (s : PState) : JSValue × PState :=
  let r := scanNumberChars s
  (.vnum (jsParseInt r.1), r.2)

/-- Parser.advanceMultiple (src/index.ts lines 361-367). -/
def advanceMultiple : Nat → PState → List Char × PState
  | 0, s => ([], s)
  | n + 1, s =>
    let st := advance s
    let r := advanceMultiple n st.2
    (optList st.1 ++ r.1, r.2)

/-- Message of the invalid-boolean diagnostic (src/index.ts lines 379,
    393, 410). -/
def invalidBooleanMessage (got : List Char) : List Char :=
  ("Invalid boolean value: \"").toList ++ got ++
    ("\". Expected \"true\" or \"false\".").toList

/-- Parser.parseBoolean (src/index.ts lines 369-416), called after the
    question mark was consumed: expect the literal true or false; on
    anything else consume up to the next number terminator and record a
    diagnostic, returning false. -/
def parseBoolean (s : PState) : JSValue × PState :=
  let startCursor := copyCursor s.cursor
  let st := advance s
  if st.1 = some 't' then
    let r := advanceMultiple 3 st.2
    if r.1 = ('r' :: 'u' :: 'e' :: []) then (.vbool true, r.2)
    else
      (.vbool false,
        addError r.2 ⟨invalidBooleanMessage (optList st.1 ++ r.1), copyCursor startCursor,
          some (copyCursor r.2.cursor)⟩)
  else if st.1 = some 'f' then
    let r := advanceMultiple 4 st.2
    if r.1 = ('a' :: 'l' :: 's' :: 'e' :: []) then (.vbool false, r.2)
    else
      (.vbool false,
        addError r.2 ⟨invalidBooleanMessage (optList st.1 ++ r.1), copyCursor startCursor,
          some (copyCursor r.2.cursor)⟩)
  else
    let r := scanNumberChars st.2
    (.vbool false,
      addError r.2 ⟨invalidBooleanMessage (optList st.1 ++ r.1), copyCursor startCursor,
        some (copyCursor r.2.cursor)⟩)

/-- Parser.parseNull (src/index.ts lines 191-194): consumes one more
    character after the tilde that the dispatcher already consumed. -/
def parseNull (s : PState) : JSValue × PState :=
  (.vnull, (advance s).2)

/-- The keys of the Parser._parsers dispatch table in insertion order
    (src/index.ts lines 71-82). -/
def isParserKey (c : Char) : Bool :=
  c == '\x7b' || c == '[' || c == '<' || c == '"' || c == '#' || c == '=' ||
    c == '?' || c == '~'

/-- Object.keys(this._parsers).join(&quot;, &quot;) as interpolated into the
    unexpected-character messages. -/
def parserKeysJoined : List Char :=
  ("\x7b, [, <, \", #, =, ?, ~").toList

/-- The message `Unexpected character: <got>. Expected a <expected>`
    (src/index.ts lines 181-183, 230, 240, 254-257). -/
def expectedMessage (got expected : List Char) : List Char :=
  ("Unexpected character: ").toList ++ got ++ (". Expected a ").toList ++ expected

def strResult (p : List Char × PState) : JSValue × PState := (.vstr p.1, p.2)

mutual
/-- Parser.parseVal (src/index.ts lines 171-189): look up the dispatch table
    at the peeked character; when found, consume it and run the production;
    otherwise record an unexpected-character diagnostic without consuming
    anything and yield null. -/
def parseVal : Nat → PState → Option (JSValue × PState)
  | 0, _ => none
  | fuel + 1, s =>
    let startCursor := copyCursor s.cursor
    let c := peek s
    if isParserKey c then applyParser fuel c (advance s).2
    else
      some (.vnull,
        addError s ⟨expectedMessage [c] parserKeysJoined, startCursor,
          some (copyCursor s.cursor)⟩)
  termination_by structural fuel => fuel

/-- The Parser._parsers dispatch table (src/index.ts lines 71-82) as a
    function from the already-looked-up key character to the production it
    triggers; only called on characters satisfying `isParserKey`. -/
def applyParser : Nat → Char → PState → Option (JSValue × PState)
  | 0, _, _ => none
  | fuel + 1, c, s =>
    if c = '\x7b' then parseObject fuel s
    else if c = '[' then parseArray fuel s
    else if c = '<' then parseArrayTypeSpecifier fuel s
    else if c = '"' then some (strResult (parseString s))
    else if c = '#' then some (parseIntMethod s)
    else if c = '=' then some (parseFloatMethod s)
    else if c = '?' then some (parseBoolean s)
    else if c = '~' then some (parseNull s)
    else none
  termination_by structural fuel => fuel

/-- Parser.parseObject (src/index.ts lines 196-206), called after the opening
    brace was consumed: skip whitespace, then repeat name-plus-value members
    until a closing brace or the end of input; the trailing advance skips the
    closing brace (or moves past the end).  No diagnostic is recorded when
    the closing brace is missing. -/
def parseObject : Nat → PState → Option (JSValue × PState)
  | 0, _ => none
  | fuel + 1, s => parseObjectLoop fuel (skipWhitespace s) .nil
  termination_by structural fuel => fuel

def parseObjectLoop : Nat → PState → JSObj → Option (JSValue × PState)
  | 0, _, _ => none
  | fuel + 1, s, acc =>
    if peek s ≠ '\x7d' ∧ atEnd s = false then
      match parseNameRequiredValue fuel s with
      | none => none
      | some (r, s2) => parseObjectLoop fuel (skipWhitespace s2) (objSetKey acc r.1 r.2)
    else
      some (.vobj acc, (advance s).2)
  termination_by structural fuel => fuel

/-- Parser.parseArray (src/index.ts lines 208-222), called after the opening
    bracket was consumed. -/
def parseArray : Nat → PState → Option (JSValue × PState)
  | 0, _ => none
  | fuel + 1, s => parseArrayLoop fuel (skipWhitespace s) .nil
  termination_by structural fuel => fuel

def parseArrayLoop : Nat → PState → JSArr → Option (JSValue × PState)
  | 0, _, _ => none
  | fuel + 1, s, acc =>
    if peek s ≠ ']' ∧ atEnd s = false then
      match parseNameOptionalValue fuel s with
      | none => none
      | some (r, s2) =>
        let item : JSValue :=
          match r.1 with
          | some nm => .vobj (.cons nm r.2 .nil)
          | none => r.2
        parseArrayLoop fuel (skipWhitespace s2) (arrPush acc item)
    else
      some (.varr acc, (advance s).2)
  termination_by structural fuel => fuel

/-- Parser.parseArrayTypeSpecifier (src/index.ts lines 224-278), called after
    the opening angle bracket was consumed: read the type character, expect
    a closing angle bracket then an opening square bracket, then parse items
    with the hinted production, letting any dispatch-table character override
    the hint. -/
def parseArrayTypeSpecifier : Nat → PState → Option (JSValue × PState)
  | 0, _ => none
  | fuel + 1, s =>
    let st := advance s
    let st2 := advance st.2
    if st2.1 ≠ some '>' then
      some (.varr .nil,
        addError st2.2 ⟨expectedMessage (optList st2.1) ['>'], copyCursor st2.2.cursor,
          some (copyCursor st2.2.cursor)⟩)
    else
      let st3 := advance st2.2
      if st3.1 ≠ some '[' then
        some (.varr .nil,
          addError st3.2 ⟨expectedMessage (optList st3.1) ['['], copyCursor st3.2.cursor,
            some (copyCursor st3.2.cursor)⟩)
      else
        let s4 := skipWhitespace st3.2
        match st.1 with
        | some tc =>
          if isParserKey tc then parseTypedArrayLoop fuel tc s4 .nil
          else
            some (.varr .nil,
              addError s4 ⟨expectedMessage [tc] parserKeysJoined, copyCursor s4.cursor,
                some (copyCursor s4.cursor)⟩)
        | none =>
          some (.varr .nil,
            addError s4 ⟨expectedMessage [] parserKeysJoined, copyCursor s4.cursor,
              some (copyCursor s4.cursor)⟩)
  termination_by structural fuel => fuel

def parseTypedArrayLoop : Nat → Char → PState → JSArr → Option (JSValue × PState)
  | 0, _, _, _ => none
  | fuel + 1, tc, s, acc =>
    if peek s ≠ ']' ∧ atEnd s = false then
      let c := peek s
      if isParserKey c then
        match applyParser fuel c (advance s).2 with
        | none => none
        | some (v, s2) => parseTypedArrayLoop fuel tc (skipWhitespace s2) (arrPush acc v)
      else
        match applyParser fuel tc s with
        | none => none
        | some (v, s2) => parseTypedArrayLoop fuel tc (skipWhitespace s2) (arrPush acc v)
    else
      some (.varr acc, (advance s).2)
  termination_by structural fuel => fuel

/-- Parser.parseNameRequiredValue (src/index.ts lines 143-156): parse a name;
    when it is empty record the name-required diagnostic and yield a null
    value WITHOUT consuming any input, otherwise parse the value suffix. -/
def parseNameRequiredValue : Nat → PState → Option ((List Char × JSValue) × PState)
  | 0, _ => none
  | fuel + 1, s =>
    let r := parseName s
    if r.1 = [] then
      some ((r.1, .vnull),
        addError r.2 ⟨("Name is required").toList, copyCursor r.2.cursor,
          some (copyCursor r.2.cursor)⟩)
    else
      match parseVal fuel r.2 with
      | none => none
      | some (v, s2) => some ((r.1, v), s2)
  termination_by structural fuel => fuel

/-- Parser.parseNameOptionalValue (src/index.ts lines 158-169). -/
def parseNameOptionalValue : Nat → PState → Option ((Option (List Char) × JSValue) × PState)
  | 0, _ => none
  | fuel + 1, s =>
    let r := parseName s
    match parseVal fuel r.2 with
    | none => none
    | some (v, s2) => some (((if r.1 = [] then none else some r.1), v), s2)
  termination_by structural fuel => fuel
end

/-- TSON.parse = new Parser(input).parse() (src/index.ts lines 7-9 and
    122-141): skip leading whitespace, parse an optional name with a value,
    wrap a named result in a single-entry object, and throw the accumulated
    diagnostics when any were recorded.  (The source's `if (!result)` branch
    is dead code: parseNameOptionalValue always returns an object, which is
    truthy.)  `none` models a run that never finishes within the given
    fuel. -/
def parse : Nat → List Char → Option (Except (List TSONParseError) JSValue)
  | 0, _ => none
  | fuel + 1, input =>
    let s0 : PState := ⟨input, ⟨0, 1, 1⟩, []⟩
    let s1 := skipWhitespace s0
    match parseNameOptionalValue fuel s1 with
    | none => none
    | some (r, s2) =>
      match r.1 with
      | some nm =>
        some (if s2.errors = [] then .ok (.vobj (.cons nm r.2 .nil)) else .error s2.errors)
      | none =>
        some (if s2.errors = [] then .ok r.2 else .error s2.errors)

mutual
def sizeV : JSValue → Nat
  | .varr a => sizeA a + 1
  | .vobj o => sizeO o + 1
  | _ => 1
def sizeA : JSArr → Nat
  | .nil => 1
  | .cons v t => sizeV v + sizeA t + 1
def sizeO : JSObj → Nat
  | .nil => 1
  | .cons _ v t => sizeV v + sizeO t + 1
end

/-- Stringifier.isNamedObjectKey (src/index.ts lines 744-748): the reserved
    keys that must never be flattened as a named object. -/
def isNamedObjectKey (k : List Char) : Bool :=
  k == ("constructor").toList || k == ("prototype").toList ||
    k == ("toString").toList || k == ("__proto__").toList

/-- The single-key test of Stringifier.arrayStringify (src/index.ts lines
    552-558): exactly one key whose value is an object (array or plain
    object) and not null.  No reserved-key check happens on this path. -/
def singleKeyObjectValue (o : JSObj) : Option (List Char × JSValue) :=
  match objKeysJS o with
  | [k] =>
    match objGet o k with
    | .varr a => some (k, .varr a)
    | .vobj oo => some (k, .vobj oo)
    | _ => none
  | _ => none

/-- The single-key test of Stringifier.objectStringify (src/index.ts lines
    667-685): exactly one non-reserved key whose value is an array or a
    non-null object. -/
def flattenCandidate (o : JSObj) : Option (List Char × JSValue) :=
  match objKeysJS o with
  | [k] =>
    if isNamedObjectKey k then none
    else
      match objGet o k with
      | .varr a => some (k, .varr a)
      | .vobj oo => some (k, .vobj oo)
      | _ => none
  | _ => none

/-- Stringifier._indent (src/index.ts lines 648-654): two spaces repeated
    `indent` times, repeated `depth` times when pretty. -/
def indentChars (depth indent : Nat) (pretty : Bool) : List Char :=
  if pretty then
    (List.replicate depth ((List.replicate indent (' ' :: ' ' :: [])).flatten)).flatten
  else []

/-- Array.prototype.join with a fixed separator. -/
def joinSep (sep : List Char) : List (List Char) → List Char
  | [] => []
  | [x] => x
  | x :: xs => x ++ sep ++ joinSep sep xs

def boolChars (b : Bool) : List Char :=
  if b then ("true").toList else ("false").toList

mutual
/-- Stringifier.stringify (src/index.ts lines 481-530): null becomes the
    empty string ("Null is represented as just the property name"),
    undefined a dash, strings are double-quoted with the escape chain,
    numbers get the hash tag when Number.isInteger holds and otherwise the
    equals tag, booleans the question tag; arrays and objects dispatch to
    the container printers.  The fuel-0 answer is never reached from the
    wrappers, whose fuel exceeds the recursion depth. -/
def stringifyF : Nat → JSValue → Bool → Nat → List Char
  | 0, _, _, _ => []
  | fuel + 1, v, pretty, _indent =>
    match v with
    | .vnull => []
    | .vundef => ['-']
    | .vstr str => '"' :: (escapeStringTSON str ++ ['"'])
    | .vnum n => (if jsIsInteger n then '#' else '=') :: jsNumToString n
    | .vbool b => '?' :: boolChars b
    | .varr a => arrayStringifyF fuel a pretty 0 2
    | .vobj o => objectStringifyF fuel o pretty 0 2 true

/-- Stringifier.arrayStringify (src/index.ts lines 532-599). -/
def arrayStringifyF : Nat → JSArr → Bool → Nat → Nat → List Char
  | 0, _, _, _, _ => []
  | fuel + 1, arr, pretty, depth, globalIndent =>
    match arr with
    | .nil => ("[]").toList
    | .cons _ _ =>
      let indent := indentChars depth globalIndent pretty
      let delimiter := if pretty then ['\n'] else [' ']
      let start := if pretty then ('[' :: '\n' :: []) else ['[']
      let stop := if pretty then '\n' :: (indent ++ [']']) else [']']
      start ++ joinSep delimiter (arrayItemsF fuel arr pretty depth globalIndent) ++ stop
  termination_by structural fuel => fuel

/-- The item map of Stringifier.arrayStringify (src/index.ts lines 546-596):
    a single-key object with an object value renders as a named array or
    named object (the named-array call leaves globalIndent at its default),
    other objects keep their braces, anything else goes through
    stringifyValue at depth + 1. -/
def arrayItemsF : Nat → JSArr → Bool → Nat → Nat → List (List Char)
  | 0, _, _, _, _ => []
  | _fuel + 1, .nil, _, _, _ => []
  | fuel + 1, .cons item rest, pretty, depth, globalIndent =>
    let innerIndent := indentChars (depth + 1) globalIndent pretty
    let itemStr :=
      match item with
      | .vobj entries =>
        match singleKeyObjectValue entries with
        | some (name, .varr a) => name ++ arrayStringifyF fuel a pretty (depth + 1) 2
        | some (name, .vobj oo) => name ++ objectStringifyF fuel oo pretty (depth + 1) globalIndent true
        | _ => objectStringifyF fuel entries pretty (depth + 1) globalIndent true
      | _ => stringifyValueF fuel item pretty (depth + 1) globalIndent
    (if pretty then innerIndent ++ itemStr else itemStr) ::
      arrayItemsF fuel rest pretty depth globalIndent
  termination_by structural fuel => fuel

/-- Stringifier.stringifyValue (src/index.ts lines 602-646); unlike
    stringify it has no undefined case, so undefined falls through to
    String(value). -/
def stringifyValueF : Nat → JSValue → Bool → Nat → Nat → List Char
  | 0, _, _, _, _ => []
  | fuel + 1, v, pretty, depth, globalIndent =>
    match v with
    | .vnull => []
    | .vstr str => '"' :: (escapeStringTSON str ++ ['"'])
    | .vnum n => (if jsIsInteger n then '#' else '=') :: jsNumToString n
    | .vbool b => '?' :: boolChars b
    | .varr a => arrayStringifyF fuel a pretty depth globalIndent
    | .vobj o => objectStringifyF fuel o pretty depth globalIndent true
    | .vundef => ("undefined").toList
  termination_by structural fuel => fuel

/-- Stringifier.objectStringify (src/index.ts lines 656-742): empty objects
    print braces (or nothing without braces); a single-entry object with a
    non-reserved key and an object value flattens to the named form (the
    named-array call leaves globalIndent at its default); otherwise the
    members are printed joined by the delimiter. -/
def objectStringifyF : Nat → JSObj → Bool → Nat → Nat → Bool → List Char
  | 0, _, _, _, _, _ => []
  | fuel + 1, obj, pretty, depth, globalIndent, useBraces =>
    let keys := objKeysJS obj
    if keys = [] then (if useBraces then ('\x7b' :: '\x7d' :: []) else [])
    else
      match flattenCandidate obj with
      | some (k, .varr a) => k ++ arrayStringifyF fuel a pretty depth 2
      | some (k, .vobj oo) => k ++ objectStringifyF fuel oo pretty depth globalIndent true
      | _ =>
        let indent := indentChars depth globalIndent pretty
        let delimiter := if pretty then ['\n'] else [' ']
        let start := if useBraces then (if pretty then ('\x7b' :: '\n' :: []) else ['\x7b']) else []
        let stop := if useBraces then (if pretty then '\n' :: (indent ++ ['\x7d']) else ['\x7d']) else []
        start ++ joinSep delimiter (objectItemsF fuel keys obj pretty depth globalIndent) ++ stop
  termination_by structural fuel => fuel

/-- The member map of Stringifier.objectStringify (src/index.ts lines
    693-739): null members print as the bare key, array members at
    depth + 1 with the default globalIndent, object members keep braces,
    and every scalar goes through stringifyValue with its default depth. -/
def objectItemsF : Nat → List (List Char) → JSObj → Bool → Nat → Nat → List (List Char)
  | 0, _, _, _, _, _ => []
  | _fuel + 1, [], _, _, _, _ => []
  | fuel + 1, k :: rest, obj, pretty, depth, globalIndent =>
    let innerIndent := indentChars (depth + 1) globalIndent pretty
    let item :=
      match objGet obj k with
      | .vnull => k
      | .varr a => k ++ arrayStringifyF fuel a pretty (depth + 1) 2
      | .vobj oo => k ++ objectStringifyF fuel oo pretty (depth + 1) globalIndent true
      | v => k ++ stringifyValueF fuel v pretty 0 2
    (if pretty then innerIndent ++ item else item) ::
      objectItemsF fuel rest obj pretty depth globalIndent
  termination_by structural fuel => fuel
end

/-- Stringifier.stringify with the fuel wrapper; the fuel strictly exceeds
    the total size of the value, and every recursive call both descends into
    the value and consumes one unit, so the fuel-0 default is never
    reached. -/
def Stringifier.stringify (value : JSValue) (pretty : Bool) (indent : Nat) : List Char :=
  stringifyF (2 * sizeV value + 2) value pretty indent

def Stringifier.arrayStringify (arr : JSArr) (pretty : Bool) (depth globalIndent : Nat) : List Char :=
  arrayStringifyF (2 * sizeA arr + 2) arr pretty depth globalIndent

def Stringifier.stringifyValue (value : JSValue) (pretty : Bool) (depth globalIndent : Nat) : List Char :=
  stringifyValueF (2 * sizeV value + 2) value pretty depth globalIndent

def Stringifier.objectStringify (obj : JSObj) (pretty : Bool) (depth globalIndent : Nat) (useBraces : Bool) : List Char :=
  objectStringifyF (2 * sizeO obj + 2) obj pretty depth globalIndent useBraces

/-- TSON.stringify (src/index.ts lines 17-19): delegate to
    Stringifier.stringify (whose trailing indent parameter is unused by its
    body). -/
def stringify (value : JSValue) (pretty : Bool) : List Char :=
  Stringifier.stringify value pretty 2

end TSON

open TSON

/-- Propositional equality of parse results is decidable (needed to evaluate
    the parser on concrete inputs inside proofs). -/
instance {e a : Type} [DecidableEq e] [DecidableEq a] : DecidableEq (Except e a) := fun x y =>
  match x, y with
  | .ok v, .ok w =>
    if h : v = w then .isTrue (by rw [h]) else .isFalse (fun hc => h (Except.ok.inj hc))
  | .error v, .error w =>
    if h : v = w then .isTrue (by rw [h]) else .isFalse (fun hc => h (Except.error.inj hc))
  | .ok _, .error _ => .isFalse (fun hc => Except.noConfusion hc)
  | .error _, .ok _ => .isFalse (fun hc => Except.noConfusion hc)

/-- The value of the escape test "should maintain quotes through
    parse-stringify cycle": an object mapping quote to the string
    `He said "Hello" to me`. -/
def c1Value : JSValue :=
  .vobj (.cons (("quote").toList) (.vstr (("He said \"Hello\" to me").toList)) .nil)

/-- What the codec actually returns for `parse (stringify c1Value)`: the
    double quotes of the string have been replaced by lone backslashes. -/
def c1Reparsed : JSValue :=
  .vobj (.cons (("quote").toList) (.vstr (("He said \\Hello\\ to me").toList)) .nil)

/-- Claim C1: round-trip stability fails on the code.  For the Null-free,
    Name-keyed value `c1Value` (an input the repository's own round-trip
    test asserts), `parse (stringify v, pretty := false)` succeeds but
    returns a different value: the serializer escapes the inner double
    quotes as backslash-quote, and the string scanner keeps the backslash of
    a backslash-quote pair while dropping the quote, so the reparsed string
    is `He said \Hello\ to me`. -/
theorem c1_roundtrip_fails_on_escaped_quote :
    parse 99 (stringify c1Value false) = some (.ok c1Reparsed) ∧ c1Reparsed ≠ c1Value := by
  constructor
  · decide
  · decide

/-- Claim C2, counterexample: encoding the whole-valued float 1.0 does NOT
    re-emit the float tag; the serializer derives the tag from
    Number.isInteger, so the output is `#1`, not `=1`. -/
theorem c2_counterexample_float_one_gets_integer_tag :
    stringify (.vnum (.num 1)) false ≠ ("=1").toList := by decide

/-- Claim C2 as amended: the value domain of the code carries no
    Integer/Float tag (numbers are plain JavaScript numbers), and the
    serializer re-derives the prefix from Number.isInteger at
    serialization time, so the number 1.0 is emitted as `#1` and decoding
    that text yields the (integer-valued) number 1: float-ness of
    whole-valued numbers is not preserved. -/
theorem c2_amended_whole_float_reencodes_as_integer :
    stringify (.vnum (.num 1)) false = ("#1").toList ∧
      parse 20 (("#1").toList) = some (.ok (.vnum (.num 1))) := by
  constructor
  · decide
  · decide

/-- Claim C3: the code records NO diagnostic for the missing closing brace.
    On the input `person\x7bname"John" age#30` (the exact input of the
    repository's test "should throw error for unterminated object", which
    expects a throw) the parser returns the completed object with an empty
    diagnostic batch, so the parse succeeds. -/
theorem c3_missing_close_brace_no_diagnostic :
    parse 99 (("person\x7bname\"John\" age#30").toList) =
      some (.ok (.vobj (.cons (("person").toList)
        (.vobj (.cons (("name").toList) (.vstr (("John").toList))
          (.cons (("age").toList) (.vnum (.num 30)) .nil)))
        .nil))) := by decide

/-- Claim C4, counterexample: the document `\x7bname\x7d` does NOT decode
    successfully; the bare member records an unexpected-character diagnostic
    at the closing brace and the parse throws a batch of exactly one
    diagnostic. -/
theorem c4_counterexample_bare_name_records_diagnostic :
    parse 99 (("\x7bname\x7d").toList) =
      some (.error [⟨expectedMessage ['\x7d'] parserKeysJoined, ⟨5, 6, 1⟩, some ⟨5, 6, 1⟩⟩]) := by
  decide

/-- The value of the escape test "should escape quotes in strings": an
    object `message.text` holding `He said, "Hello World!"`. -/
def c6Value : JSValue :=
  .vobj (.cons (("message").toList)
    (.vobj (.cons (("text").toList) (.vstr (("He said, \"Hello World!\"").toList)) .nil)) .nil)

/-- Claim C6: the serializer performs no quote selection.  For a string
    containing double quotes (and no single quotes) it still emits
    double-quote delimiters and escapes the internal double quotes, instead
    of the single-quote delimiters the spec (and the repository's test
    "should escape quotes in strings") requires. -/
theorem c6_no_quote_selection :
    stringify c6Value false = (("message\x7btext\"He said, \\\"Hello World!\\\"\"\x7d").toList) ∧
      stringify c6Value false ≠ (("message\x7btext'He said, \"Hello World!\"'\x7d").toList) := by
  constructor
  · decide
  · decide

/-- Claim C7: the escape sequence backslash-quote is NOT converted to a
    double quote.  On the exact input of the repository's test "should parse
    escaped quotes", the scanner keeps the backslash and drops the quote, so
    the decoded string is `He said, \Hello World!\` instead of
    `He said, "Hello World!"`. -/
theorem c7_escaped_quote_mangled :
    parse 99 (("message\x7btext\"He said, \\\"Hello World!\\\"\"\x7d").toList) =
      some (.ok (.vobj (.cons (("message").toList)
        (.vobj (.cons (("text").toList)
          (.vstr (("He said, \\Hello World!\\").toList)) .nil)) .nil))) ∧
      (("He said, \\Hello World!\\").toList) ≠ (("He said, \"Hello World!\"").toList) := by
  constructor
  · decide
  · decide

/-- Claim C8, counterexample: encoding Null emits the empty string, not the
    tilde. -/
theorem c8_counterexample_null_not_tilde :
    stringify .vnull false ≠ ("~").toList := by decide

/-- Claim C8 as amended: encoding Null emits the EMPTY string in every
    position — as the whole document, as a property value (the member
    renders as the bare key), and as an array item (which therefore
    vanishes) — while encoding a Boolean emits `?true` / `?false`. -/
theorem c8_amended_null_empty_boolean_question :
    stringify .vnull false = [] ∧
      Stringifier.stringifyValue .vnull false 0 2 = [] ∧
      Stringifier.objectStringify (.cons (("a").toList) .vnull .nil) false 0 2 true =
        ("\x7ba\x7d").toList ∧
      Stringifier.arrayStringify (.cons .vnull .nil) false 0 2 = ("[]").toList ∧
      (∀ b : Bool, stringify (.vbool b) false = '?' :: boolChars b) := by
  refine ⟨by decide, by decide, by decide, by decide, ?_⟩
  intro b
  cases b <;> decide

/-- Claim C9, counterexample: the opening brace is NOT in the code's
    number-terminator class (the regex /^[\s,\}\]\"\:;]$/ lacks it), so a
    bare numeric scan runs straight through an opening brace: on the
    remaining input `1\x7b2 ` the scan consumes `1\x7b2`, not the `1` that
    the spec's terminator set (modelled by `specNumberTerminator`) would
    produce. -/
theorem c9_counterexample_brace_not_terminator :
    isNumberTerminator '\x7b' = false ∧
      specNumberTerminator '\x7b' = true ∧
      (scanNumberChars ⟨("1\x7b2 ").toList, ⟨0, 1, 1⟩, []⟩).1 = ("1\x7b2").toList ∧
      (("1\x7b2 ").toList).takeWhile (fun c => !specNumberTerminator c) ≠ ("1\x7b2").toList := by
  refine ⟨by decide, by decide, by decide, by decide⟩

/-! Plumbing lemmas about the scanning state, phrased through `List.drop`
    at the cursor position. -/

theorem getD_of_drop : ∀ (l : List Char) (n : Nat) (c : Char) (t : List Char),
    l.drop n = c :: t → l.getD n '\x00' = c := by
  intro l
  induction l with
  | nil => intro n c t h; simp at h
  | cons x xs ih =>
    intro n c t h
    cases n with
    | zero => simp at h; simp [h.1]
    | succ m =>
      rw [List.drop_succ_cons] at h
      rw [List.getD_cons_succ]
      exact ih m c t h

theorem get?_of_drop : ∀ (l : List Char) (n : Nat) (c : Char) (t : List Char),
    l.drop n = c :: t → l.get? n = some c := by
  intro l
  induction l with
  | nil => intro n c t h; simp at h
  | cons x xs ih =>
    intro n c t h
    cases n with
    | zero => simp at h; simp [h.1]
    | succ m =>
      rw [List.drop_succ_cons] at h
      rw [List.get?_cons_succ]
      exact ih m c t h

theorem drop_succ_of_drop : ∀ (l : List Char) (n : Nat) (c : Char) (t : List Char),
    l.drop n = c :: t → l.drop (n + 1) = t := by
  intro l
  induction l with
  | nil => intro n c t h; simp at h
  | cons x xs ih =>
    intro n c t h
    cases n with
    | zero => simp at h; simp [h.2]
    | succ m => simp at h ⊢; exact ih m c t h

theorem lt_length_of_drop : ∀ (l : List Char) (n : Nat) (c : Char) (t : List Char),
    l.drop n = c :: t → n < l.length := by
  intro l
  induction l with
  | nil => intro n c t h; simp at h
  | cons x xs ih =>
    intro n c t h
    cases n with
    | zero => simp
    | succ m => simp at h ⊢; exact ih m c t h

theorem length_le_of_drop_nil : ∀ (l : List Char) (n : Nat),
    l.drop n = [] → l.length ≤ n := by
  intro l
  induction l with
  | nil => intro n _; simp
  | cons x xs ih =>
    intro n h
    cases n with
    | zero => simp at h
    | succ m =>
      rw [List.drop_succ_cons] at h
      rw [List.length_cons]
      exact Nat.succ_le_succ (ih m h)

theorem peek_of_drop {s : PState} {c : Char} {t : List Char}
    (h : s.input.drop s.cursor.position = c :: t) : peek s = c := by
  have hlt := lt_length_of_drop _ _ _ _ h
  unfold peek
  rw [if_neg (by omega)]
  exact getD_of_drop _ _ _ _ h

theorem atEnd_false_of_drop {s : PState} {c : Char} {t : List Char}
    (h : s.input.drop s.cursor.position = c :: t) : atEnd s = false := by
  have hlt := lt_length_of_drop _ _ _ _ h
  unfold atEnd
  simp
  omega

theorem peek_of_drop_nil {s : PState}
    (h : s.input.drop s.cursor.position = []) : peek s = '\x00' := by
  have := length_le_of_drop_nil _ _ h
  unfold peek
  rw [if_pos this]

theorem atEnd_true_of_drop_nil {s : PState}
    (h : s.input.drop s.cursor.position = []) : atEnd s = true := by
  have := length_le_of_drop_nil _ _ h
  unfold atEnd
  simpa

theorem advance_of_drop {inp : List Char} {pos col line : Nat}
    {errs : List TSONParseError} {c : Char} {t : List Char}
    (h : inp.drop pos = c :: t) (hc : c ≠ '\n') :
    advance ⟨inp, ⟨pos, col, line⟩, errs⟩ =
      (some c, ⟨inp, ⟨pos + 1, col + 1, line⟩, errs⟩) := by
  unfold advance
  have hg : inp.get? pos = some c := get?_of_drop _ _ _ _ h
  simp only [hg]
  rw [if_neg (by simp [hc])]

/-- skipWhitespace does nothing when the peeked character is not a comma,
    space, newline, carriage return or tab. -/
theorem skipWhitespace_noop {s : PState}
    (h : (peek s == ',' || peek s == ' ' || peek s == '\n' || peek s == '\r' ||
      peek s == '\t') = false) : skipWhitespace s = s := by
  unfold skipWhitespace
  unfold skipWhitespaceAux
  rw [if_neg]
  simp at h
  simp [h]

/-! Claim C5: divergence of the parser. -/

/-- The input of the repository's test "should throw error for invalid array
    separator". -/
def c5Input : List Char := ("[#1;#2;#3]").toList

/-- The diagnostic the parser records (over and over) at the semicolon. -/
def c5Err : TSONParseError :=
  ⟨expectedMessage [';'] parserKeysJoined, ⟨3, 4, 1⟩, some ⟨3, 4, 1⟩⟩

theorem c5_pnov_step (k : Nat) (errs : List TSONParseError) :
    parseNameOptionalValue (k + 2) ⟨c5Input, ⟨3, 4, 1⟩, errs⟩ =
      some ((none, .vnull), ⟨c5Input, ⟨3, 4, 1⟩, errs ++ [c5Err]⟩) := rfl

theorem c5_loop_stuck : ∀ (fuel : Nat) (errs : List TSONParseError) (acc : JSArr),
    parseArrayLoop fuel ⟨c5Input, ⟨3, 4, 1⟩, errs⟩ acc = none := by
  intro fuel
  induction fuel with
  | zero => intro errs acc; rfl
  | succ n ih =>
    intro errs acc
    match n with
    | 0 => rfl
    | 1 => rfl
    | k + 2 =>
      have step : parseArrayLoop (k + 2 + 1) ⟨c5Input, ⟨3, 4, 1⟩, errs⟩ acc =
          parseArrayLoop (k + 2) ⟨c5Input, ⟨3, 4, 1⟩, errs ++ [c5Err]⟩ (arrPush acc .vnull) := rfl
      rw [step]
      exact ih (errs ++ [c5Err]) (arrPush acc .vnull)

/-- Fuel exhaustion propagates from parseVal through
    parseNameOptionalValue. -/
theorem pnov_none (fuel : Nat) (s : PState)
    (h : parseVal fuel (parseName s).2 = none) :
    parseNameOptionalValue (fuel + 1) s = none := by
  simp only [parseNameOptionalValue]
  rw [h]

/-- Fuel exhaustion propagates from parseNameOptionalValue through parse. -/
theorem parse_none (fuel : Nat) (inp : List Char)
    (h : parseNameOptionalValue fuel (skipWhitespace ⟨inp, ⟨0, 1, 1⟩, []⟩) = none) :
    parse (fuel + 1) inp = none := by
  simp only [parse]
  rw [h]

/-- Claim C5: the parser does NOT terminate on every input.  On the input
    `[#1;#2;#3]` of the repository's own test "should throw error for
    invalid array separator", parseVal records a diagnostic at the semicolon
    without consuming it, and the array loop re-enters at the same position
    forever: for every fuel the embedded run exhausts its fuel, which models
    divergence of the source loop.  In particular the parser does not skip
    past whitespace after a malformed member — no production consumes input
    on the diagnostic path. -/
theorem c5_semicolon_array_diverges : ∀ fuel : Nat, parse fuel c5Input = none := by
  intro fuel
  rcases Nat.lt_or_ge fuel 9 with h | h
  · interval_cases fuel <;> rfl
  · obtain ⟨k, hk⟩ := Nat.le.dest h
    rw [Nat.add_comm] at hk
    subst hk
    have hval : parseVal (k + 7) ⟨c5Input, ⟨0, 1, 1⟩, []⟩ = none := by
      rw [show parseVal (k + 7) ⟨c5Input, ⟨0, 1, 1⟩, []⟩ =
          parseArrayLoop (k + 3) ⟨c5Input, ⟨3, 4, 1⟩, []⟩
            (arrPush .nil (.vnum (.num 1))) from rfl]
      exact c5_loop_stuck (k + 3) [] (arrPush .nil (.vnum (.num 1)))
    exact parse_none (k + 8) c5Input (pnov_none (k + 7) _ hval)

/-! Claim C9: the exact stopping behaviour of the bare numeric/boolean
    scan. -/

theorem scanNumberAux_spec : ∀ (fuel : Nat) (s : PState),
    s.input.length - s.cursor.position < fuel →
    scanNumberAux fuel s =
      ((s.input.drop s.cursor.position).takeWhile (fun c => !isNumberTerminator c),
        ⟨s.input,
          ⟨s.cursor.position +
              ((s.input.drop s.cursor.position).takeWhile (fun c => !isNumberTerminator c)).length,
            s.cursor.column +
              ((s.input.drop s.cursor.position).takeWhile (fun c => !isNumberTerminator c)).length,
            s.cursor.line⟩,
          s.errors⟩) := by
  intro fuel
  induction fuel with
  | zero => intro s h; omega
  | succ n ih =>
    intro s h
    rcases s with ⟨inp, ⟨pos, col, line⟩, errs⟩
    simp only at h ⊢
    rcases hd : inp.drop pos with _ | ⟨c, t⟩
    · have hend := atEnd_true_of_drop_nil (s := ⟨inp, ⟨pos, col, line⟩, errs⟩) hd
      unfold scanNumberAux
      rw [if_neg (by simp [hend])]
      simp [hd]
    · have hpk := peek_of_drop (s := ⟨inp, ⟨pos, col, line⟩, errs⟩) hd
      have hend := atEnd_false_of_drop (s := ⟨inp, ⟨pos, col, line⟩, errs⟩) hd
      by_cases hterm : isNumberTerminator c = true
      · unfold scanNumberAux
        rw [if_neg (by simp [hpk, hterm])]
        simp [hd, List.takeWhile_cons, hterm]
      · simp only [Bool.not_eq_true] at hterm
        have hcn : c ≠ '\n' := by
          intro hc
          rw [hc] at hterm
          simp [isNumberTerminator, jsWhitespaceChar] at hterm
        have hlt := lt_length_of_drop _ _ _ _ hd
        have hadv := @advance_of_drop inp pos col line errs c t hd hcn
        have hd2 : inp.drop (pos + 1) = t := drop_succ_of_drop _ _ _ _ hd
        have hih := ih ⟨inp, ⟨pos + 1, col + 1, line⟩, errs⟩ (by simp only []; omega)
        simp only [hd2] at hih
        unfold scanNumberAux
        rw [if_pos (by simp [hpk, hterm, hend])]
        simp only [hadv, hih]
        simp [hd, List.takeWhile_cons, hterm, optList]
        constructor
        · omega
        · omega

/-- Claim C9 as amended: the bare numeric/boolean scan consumes exactly the
    longest run of characters that are NOT in the code's terminator class
    `isNumberTerminator` (whitespace , \x7d ] " : ; — WITHOUT the opening
    brace), stopping also at the end of the input; the cursor advances by
    the length of the consumed run and no diagnostics change. -/
theorem c9_amended_scan_stops_exactly_at_code_terminators (s : PState) :
    scanNumberChars s =
      ((s.input.drop s.cursor.position).takeWhile (fun c => !isNumberTerminator c),
        ⟨s.input,
          ⟨s.cursor.position +
              ((s.input.drop s.cursor.position).takeWhile (fun c => !isNumberTerminator c)).length,
            s.cursor.column +
              ((s.input.drop s.cursor.position).takeWhile (fun c => !isNumberTerminator c)).length,
            s.cursor.line⟩,
          s.errors⟩) := by
  unfold scanNumberChars
  exact scanNumberAux_spec (s.input.length + 1) s (by omega)

/-! Claim C4: bare-name members. -/

theorem isNamePart_not_ws {c : Char} (h : isNamePart c = true) :
    (c == ',' || c == ' ' || c == '\n' || c == '\r' || c == '\t') = false := by
  cases hb : (c == ',' || c == ' ' || c == '\n' || c == '\r' || c == '\t') with
  | false => rfl
  | true =>
    exfalso
    simp at hb
    rcases hb with (((rfl | rfl) | rfl) | rfl) | rfl <;> exact absurd h (by decide)

theorem isNamePart_ne {c d : Char} (h : isNamePart c = true)
    (hd : isNamePart d = false) : c ≠ d := by
  intro he
  rw [he, hd] at h
  exact Bool.false_ne_true h

theorem parseNameAux_spec : ∀ (nm : List Char) (fuel : Nat) (inp : List Char)
    (pos col line : Nat) (errs : List TSONParseError) (rest : List Char),
    inp.drop pos = nm ++ rest →
    (∀ c ∈ nm, isNamePart c = true) →
    (∀ c, rest.head? = some c → isNamePart c = false) →
    nm.length < fuel →
    parseNameAux fuel ⟨inp, ⟨pos, col, line⟩, errs⟩ =
      (nm, ⟨inp, ⟨pos + nm.length, col + nm.length, line⟩, errs⟩) := by
  intro nm
  induction nm with
  | nil =>
    intro fuel inp pos col line errs rest hdrop hmem hbound hfuel
    match fuel with
    | m + 1 =>
      simp only [List.nil_append] at hdrop
      unfold parseNameAux
      have hpk : isNamePart (peek ⟨inp, ⟨pos, col, line⟩, errs⟩) = false := by
        rcases rest with _ | ⟨r, rs⟩
        · rw [peek_of_drop_nil (s := ⟨inp, ⟨pos, col, line⟩, errs⟩) hdrop]
          decide
        · rw [peek_of_drop (s := ⟨inp, ⟨pos, col, line⟩, errs⟩) hdrop]
          exact hbound r rfl
      rw [if_neg (by simp [hpk])]
      simp
  | cons c0 nm0 ih =>
    intro fuel inp pos col line errs rest hdrop hmem hbound hfuel
    match fuel with
    | m + 1 =>
      rw [List.cons_append] at hdrop
      have hc0 : isNamePart c0 = true := hmem c0 (by simp)
      have hpk := peek_of_drop (s := ⟨inp, ⟨pos, col, line⟩, errs⟩) hdrop
      have hcn : c0 ≠ '\n' := isNamePart_ne hc0 (by decide)
      have hadv := @advance_of_drop inp pos col line errs c0 (nm0 ++ rest) hdrop hcn
      have hd2 := drop_succ_of_drop _ _ _ _ hdrop
      unfold parseNameAux
      rw [if_pos (by rw [hpk]; exact hc0)]
      have hih := ih m inp (pos + 1) (col + 1) line errs rest hd2
        (fun c hc => hmem c (by simp [hc])) hbound (by simp at hfuel; omega)
      simp only [hadv, hih]
      simp [optList]
      constructor
      · omega
      · omega

/-- parseName collects exactly the maximal run of name-part characters at
    the cursor. -/
theorem parseName_spec {inp : List Char} {pos col line : Nat}
    {errs : List TSONParseError} {nm rest : List Char}
    (hdrop : inp.drop pos = nm ++ rest)
    (hmem : ∀ c ∈ nm, isNamePart c = true)
    (hbound : ∀ c, rest.head? = some c → isNamePart c = false) :
    parseName ⟨inp, ⟨pos, col, line⟩, errs⟩ =
      (nm, ⟨inp, ⟨pos + nm.length, col + nm.length, line⟩, errs⟩) := by
  unfold parseName
  apply parseNameAux_spec nm _ inp pos col line errs rest hdrop hmem hbound
  have : (inp.drop pos).length = nm.length + rest.length := by rw [hdrop]; simp
  simp only [List.length_drop] at this
  simp only []
  omega

theorem parseVal_succ (fuel : Nat) (s : PState) :
    parseVal (fuel + 1) s =
      (if isParserKey (peek s) then applyParser fuel (peek s) (advance s).2
       else
        some (.vnull,
          addError s ⟨expectedMessage [peek s] parserKeysJoined, copyCursor s.cursor,
            some (copyCursor s.cursor)⟩)) := rfl

theorem parseObject_succ (fuel : Nat) (s : PState) :
    parseObject (fuel + 1) s = parseObjectLoop fuel (skipWhitespace s) .nil := rfl

theorem parseObjectLoop_succ (fuel : Nat) (s : PState) (acc : JSObj) :
    parseObjectLoop (fuel + 1) s acc =
      (if peek s ≠ '\x7d' ∧ atEnd s = false then
        match parseNameRequiredValue fuel s with
        | none => none
        | some (r, s2) => parseObjectLoop fuel (skipWhitespace s2) (objSetKey acc r.1 r.2)
       else some (.vobj acc, (advance s).2)) := rfl

theorem parseArray_succ (fuel : Nat) (s : PState) :
    parseArray (fuel + 1) s = parseArrayLoop fuel (skipWhitespace s) .nil := rfl

theorem parseArrayLoop_succ (fuel : Nat) (s : PState) (acc : JSArr) :
    parseArrayLoop (fuel + 1) s acc =
      (if peek s ≠ ']' ∧ atEnd s = false then
        match parseNameOptionalValue fuel s with
        | none => none
        | some (r, s2) =>
          parseArrayLoop fuel (skipWhitespace s2)
            (arrPush acc (match r.1 with
              | some nm => JSValue.vobj (.cons nm r.2 .nil)
              | none => r.2))
       else some (.varr acc, (advance s).2)) := rfl

theorem parseNameRequiredValue_succ (fuel : Nat) (s : PState) :
    parseNameRequiredValue (fuel + 1) s =
      (if (parseName s).1 = [] then
        some (((parseName s).1, .vnull),
          addError (parseName s).2 ⟨("Name is required").toList,
            copyCursor (parseName s).2.cursor, some (copyCursor (parseName s).2.cursor)⟩)
       else
        match parseVal fuel (parseName s).2 with
        | none => none
        | some (v, s2) => some (((parseName s).1, v), s2)) := rfl

theorem parseNameOptionalValue_succ (fuel : Nat) (s : PState) :
    parseNameOptionalValue (fuel + 1) s =
      (match parseVal fuel (parseName s).2 with
       | none => none
       | some (v, s2) =>
         some (((if (parseName s).1 = [] then none else some (parseName s).1), v), s2)) := rfl

theorem parse_succ (fuel : Nat) (inp : List Char) :
    parse (fuel + 1) inp =
      (match parseNameOptionalValue fuel (skipWhitespace ⟨inp, ⟨0, 1, 1⟩, []⟩) with
       | none => none
       | some (r, s2) =>
         match r.1 with
         | some nm =>
           some (if s2.errors = [] then .ok (.vobj (.cons nm r.2 .nil)) else .error s2.errors)
         | none => some (if s2.errors = [] then .ok r.2 else .error s2.errors)) := rfl

theorem applyParser_brace (fuel : Nat) (s : PState) :
    applyParser (fuel + 1) '\x7b' s = parseObject fuel s := rfl

/-! Claim C10: the goodness invariant of cursors and recorded
    diagnostics. -/

/-- Line and column of a cursor are 1-based. -/
def GoodCursor (c : Cursor) : Prop := 1 ≤ c.column ∧ 1 ≤ c.line

/-- Both cursors of a diagnostic are 1-based. -/
def GoodErr (e : TSONParseError) : Prop :=
  GoodCursor e.cursor ∧ ∀ c ∈ e.endCursor, GoodCursor c

/-- The live cursor and every recorded diagnostic are 1-based. -/
def GoodState (s : PState) : Prop :=
  GoodCursor s.cursor ∧ ∀ e ∈ s.errors, GoodErr e

theorem copyCursor_eq (c : Cursor) : copyCursor c = c := rfl

theorem goodErr_mk (m : List Char) {a b : Cursor} (ha : GoodCursor a) (hb : GoodCursor b) :
    GoodErr ⟨m, copyCursor a, some (copyCursor b)⟩ := by
  refine ⟨by rw [copyCursor_eq]; exact ha, ?_⟩
  intro c hc
  simp only [Option.mem_def, Option.some.injEq] at hc
  subst hc
  rw [copyCursor_eq]
  exact hb

theorem goodState_advance {s : PState} (h : GoodState s) : GoodState (advance s).2 := by
  obtain ⟨⟨hc, hl⟩, he⟩ := h
  refine ⟨?_, he⟩
  unfold advance GoodCursor
  dsimp only
  by_cases hn : s.input.get? s.cursor.position = some '\n'
  · rw [if_pos hn]
    refine ⟨?_, ?_⟩ <;> (dsimp only; omega)
  · rw [if_neg hn]
    refine ⟨?_, ?_⟩ <;> (dsimp only; omega)

theorem goodState_addError {s : PState} {e : TSONParseError}
    (h : GoodState s) (he : GoodErr e) : GoodState (addError s e) := by
  obtain ⟨hc, hes⟩ := h
  refine ⟨hc, ?_⟩
  intro x hx
  unfold addError at hx
  simp only at hx
  rw [List.mem_append] at hx
  rcases hx with hx | hx
  · exact hes x hx
  · simp at hx
    rw [hx]
    exact he

theorem goodState_skipWhitespaceAux : ∀ (fuel : Nat) {s : PState},
    GoodState s → GoodState (skipWhitespaceAux fuel s) := by
  intro fuel
  induction fuel with
  | zero => intro s h; exact h
  | succ n ih =>
    intro s h
    unfold skipWhitespaceAux
    dsimp only
    split
    · exact ih (goodState_advance h)
    · exact h

theorem goodState_skipWhitespace {s : PState} (h : GoodState s) :
    GoodState (skipWhitespace s) := goodState_skipWhitespaceAux _ h

theorem goodState_parseNameAux : ∀ (fuel : Nat) {s : PState},
    GoodState s → GoodState (parseNameAux fuel s).2 := by
  intro fuel
  induction fuel with
  | zero => intro s h; exact h
  | succ n ih =>
    intro s h
    unfold parseNameAux
    dsimp only
    split
    · exact ih (goodState_advance h)
    · exact h

theorem goodState_parseName {s : PState} (h : GoodState s) :
    GoodState (parseName s).2 := goodState_parseNameAux _ h

theorem goodState_advanceMultiple : ∀ (n : Nat) {s : PState},
    GoodState s → GoodState (advanceMultiple n s).2 := by
  intro n
  induction n with
  | zero => intro s h; exact h
  | succ m ih =>
    intro s h
    unfold advanceMultiple
    exact ih (goodState_advance h)

theorem goodState_scanNumberAux : ∀ (fuel : Nat) {s : PState},
    GoodState s → GoodState (scanNumberAux fuel s).2 := by
  intro fuel
  induction fuel with
  | zero => intro s h; exact h
  | succ n ih =>
    intro s h
    unfold scanNumberAux
    dsimp only
    split
    · exact ih (goodState_advance h)
    · exact h

theorem goodState_scanNumberChars {s : PState} (h : GoodState s) :
    GoodState (scanNumberChars s).2 := goodState_scanNumberAux _ h

theorem goodState_parseStringScanAux : ∀ (fuel : Nat) {sc : Cursor} {s : PState},
    GoodCursor sc → GoodState s → GoodState (parseStringScanAux fuel sc s).2 := by
  intro fuel
  induction fuel with
  | zero => intro sc s _ h; exact h
  | succ n ih =>
    intro sc s hsc h
    unfold parseStringScanAux
    dsimp only
    split
    · split
      · exact goodState_addError h (goodErr_mk _ hsc h.1)
      · split
        · exact ih hsc (goodState_advance (goodState_advance h))
        · exact ih hsc (goodState_advance h)
    · exact h

theorem goodState_parseString {s : PState} (h : GoodState s) :
    GoodState (parseString s).2 := by
  unfold parseString
  have hscan := @goodState_parseStringScanAux (s.input.length + 1)
    (copyCursor s.cursor) s (by rw [copyCursor_eq]; exact h.1) h
  dsimp only
  split
  · next s2 heq =>
    have h2 : (parseStringScanAux (s.input.length + 1) (copyCursor s.cursor) s).2 = s2 :=
      congrArg Prod.snd heq
    rw [h2] at hscan
    exact hscan
  · next buf s2 heq =>
    have h2 : (parseStringScanAux (s.input.length + 1) (copyCursor s.cursor) s).2 = s2 :=
      congrArg Prod.snd heq
    rw [h2] at hscan
    exact goodState_advance hscan

theorem goodState_parseIntMethod {s : PState} (h : GoodState s) :
    GoodState (parseIntMethod s).2 := goodState_scanNumberChars h

theorem goodState_parseFloatMethod {s : PState} (h : GoodState s) :
    GoodState (parseFloatMethod s).2 := goodState_scanNumberChars h

theorem goodState_parseNull {s : PState} (h : GoodState s) :
    GoodState (parseNull s).2 := goodState_advance h

theorem goodState_parseBoolean {s : PState} (h : GoodState s) :
    GoodState (parseBoolean s).2 := by
  unfold parseBoolean
  have h1 := goodState_advance h
  have hsc : GoodCursor (copyCursor s.cursor) := by rw [copyCursor_eq]; exact h.1
  dsimp only
  split
  · split
    · exact goodState_advanceMultiple 3 h1
    · exact goodState_addError (goodState_advanceMultiple 3 h1)
        (goodErr_mk _ h.1 (goodState_advanceMultiple 3 h1).1)
  · split
    · split
      · exact goodState_advanceMultiple 4 h1
      · exact goodState_addError (goodState_advanceMultiple 4 h1)
          (goodErr_mk _ h.1 (goodState_advanceMultiple 4 h1).1)
    · exact goodState_addError (goodState_scanNumberChars h1)
        (goodErr_mk _ h.1 (goodState_scanNumberChars h1).1)

theorem applyParser_succ (fuel : Nat) (c : Char) (s : PState) :
    applyParser (fuel + 1) c s =
      (if c = '\x7b' then parseObject fuel s
       else if c = '[' then parseArray fuel s
       else if c = '<' then parseArrayTypeSpecifier fuel s
       else if c = '"' then some (strResult (parseString s))
       else if c = '#' then some (parseIntMethod s)
       else if c = '=' then some (parseFloatMethod s)
       else if c = '?' then some (parseBoolean s)
       else if c = '~' then some (parseNull s)
       else none) := rfl

theorem parseArrayTypeSpecifier_succ (fuel : Nat) (s : PState) :
    parseArrayTypeSpecifier (fuel + 1) s =
      (if (advance (advance s).2).1 ≠ some '>' then
        some (.varr .nil,
          addError (advance (advance s).2).2
            ⟨expectedMessage (optList (advance (advance s).2).1) ['>'],
              copyCursor (advance (advance s).2).2.cursor,
              some (copyCursor (advance (advance s).2).2.cursor)⟩)
       else if (advance (advance (advance s).2).2).1 ≠ some '[' then
        some (.varr .nil,
          addError (advance (advance (advance s).2).2).2
            ⟨expectedMessage (optList (advance (advance (advance s).2).2).1) ['['],
              copyCursor (advance (advance (advance s).2).2).2.cursor,
              some (copyCursor (advance (advance (advance s).2).2).2.cursor)⟩)
       else
        match (advance s).1 with
        | some tc =>
          if isParserKey tc then
            parseTypedArrayLoop fuel tc
              (skipWhitespace (advance (advance (advance s).2).2).2) .nil
          else
            some (.varr .nil,
              addError (skipWhitespace (advance (advance (advance s).2).2).2)
                ⟨expectedMessage [tc] parserKeysJoined,
                  copyCursor (skipWhitespace (advance (advance (advance s).2).2).2).cursor,
                  some (copyCursor (skipWhitespace (advance (advance (advance s).2).2).2).cursor)⟩)
        | none =>
          some (.varr .nil,
            addError (skipWhitespace (advance (advance (advance s).2).2).2)
              ⟨expectedMessage [] parserKeysJoined,
                copyCursor (skipWhitespace (advance (advance (advance s).2).2).2).cursor,
                some (copyCursor (skipWhitespace (advance (advance (advance s).2).2).2).cursor)⟩)) := rfl

theorem parseTypedArrayLoop_succ (fuel : Nat) (tc : Char) (s : PState) (acc : JSArr) :
    parseTypedArrayLoop (fuel + 1) tc s acc =
      (if peek s ≠ ']' ∧ atEnd s = false then
        if isParserKey (peek s) then
          match applyParser fuel (peek s) (advance s).2 with
          | none => none
          | some (v, s2) => parseTypedArrayLoop fuel tc (skipWhitespace s2) (arrPush acc v)
        else
          match applyParser fuel tc s with
          | none => none
          | some (v, s2) => parseTypedArrayLoop fuel tc (skipWhitespace s2) (arrPush acc v)
       else some (.varr acc, (advance s).2)) := rfl

theorem parser_fuel_none (s : PState) (c : Char) (acc : JSObj) (acc2 : JSArr) :
    applyParser 0 c s = none ∧ parseVal 0 s = none ∧ parseObject 0 s = none ∧
      parseObjectLoop 0 s acc = none ∧ parseArray 0 s = none ∧
      parseArrayLoop 0 s acc2 = none ∧ parseArrayTypeSpecifier 0 s = none ∧
      parseTypedArrayLoop 0 c s acc2 = none ∧ parseNameRequiredValue 0 s = none ∧
      parseNameOptionalValue 0 s = none :=
  ⟨rfl, rfl, rfl, rfl, rfl, rfl, rfl, rfl, rfl, rfl⟩

/-- The goodness invariant is preserved by every production of the mutual
    parser family: whenever a production completes within its fuel, the
    resulting state again has a 1-based cursor and only 1-based
    diagnostics. -/
theorem parser_good : ∀ fuel : Nat,
    (∀ c s r, GoodState s → applyParser fuel c s = some r → GoodState r.2) ∧
    (∀ s r, GoodState s → parseVal fuel s = some r → GoodState r.2) ∧
    (∀ s r, GoodState s → parseObject fuel s = some r → GoodState r.2) ∧
    (∀ s acc r, GoodState s → parseObjectLoop fuel s acc = some r → GoodState r.2) ∧
    (∀ s r, GoodState s → parseArray fuel s = some r → GoodState r.2) ∧
    (∀ s acc r, GoodState s → parseArrayLoop fuel s acc = some r → GoodState r.2) ∧
    (∀ s r, GoodState s → parseArrayTypeSpecifier fuel s = some r → GoodState r.2) ∧
    (∀ tc s acc r, GoodState s → parseTypedArrayLoop fuel tc s acc = some r → GoodState r.2) ∧
    (∀ s r, GoodState s → parseNameRequiredValue fuel s = some r → GoodState r.2) ∧
    (∀ s r, GoodState s → parseNameOptionalValue fuel s = some r → GoodState r.2) := by
  intro fuel
  induction fuel with
  | zero =>
    refine ⟨?_, ?_, ?_, ?_, ?_, ?_, ?_, ?_, ?_, ?_⟩ <;>
      (intros; exact Option.noConfusion (by assumption))
  | succ n ih =>
    obtain ⟨ihA, ihV, ihO, ihOL, ihAr, ihArL, ihT, ihTL, ihR, ihN⟩ := ih
    have goodA : ∀ c s r, GoodState s → applyParser (n + 1) c s = some r → GoodState r.2 := by
      intro c s r hs h
      rw [applyParser_succ] at h
      split at h
      · exact ihO s r hs h
      · split at h
        · exact ihAr s r hs h
        · split at h
          · exact ihT s r hs h
          · split at h
            · cases h; exact goodState_parseString hs
            · split at h
              · cases h; exact goodState_parseIntMethod hs
              · split at h
                · cases h; exact goodState_parseFloatMethod hs
                · split at h
                  · cases h; exact goodState_parseBoolean hs
                  · split at h
                    · cases h; exact goodState_parseNull hs
                    · exact Option.noConfusion h
    have goodV : ∀ s r, GoodState s → parseVal (n + 1) s = some r → GoodState r.2 := by
      intro s r hs h
      rw [parseVal_succ] at h
      split at h
      · exact ihA _ _ _ (goodState_advance hs) h
      · cases h
        exact goodState_addError hs (goodErr_mk _ hs.1 hs.1)
    have goodR : ∀ s r, GoodState s → parseNameRequiredValue (n + 1) s = some r → GoodState r.2 := by
      intro s r hs h
      rw [parseNameRequiredValue_succ] at h
      split at h
      · cases h
        exact goodState_addError (goodState_parseName hs)
          (goodErr_mk _ (goodState_parseName hs).1 (goodState_parseName hs).1)
      · split at h
        · exact Option.noConfusion h
        · next v s2 heq =>
          cases h
          exact ihV _ _ (goodState_parseName hs) heq
    have goodN : ∀ s r, GoodState s → parseNameOptionalValue (n + 1) s = some r → GoodState r.2 := by
      intro s r hs h
      rw [parseNameOptionalValue_succ] at h
      split at h
      · exact Option.noConfusion h
      · next v s2 heq =>
        cases h
        exact ihV _ _ (goodState_parseName hs) heq
    have goodOL : ∀ s acc r, GoodState s → parseObjectLoop (n + 1) s acc = some r → GoodState r.2 := by
      intro s acc r hs h
      rw [parseObjectLoop_succ] at h
      split at h
      · split at h
        · exact Option.noConfusion h
        · next rr s2 heq =>
          exact ihOL _ _ _ (goodState_skipWhitespace (ihR _ _ hs heq)) h
      · cases h
        exact goodState_advance hs
    have goodO : ∀ s r, GoodState s → parseObject (n + 1) s = some r → GoodState r.2 := by
      intro s r hs h
      rw [parseObject_succ] at h
      exact ihOL _ _ _ (goodState_skipWhitespace hs) h
    have goodArL : ∀ s acc r, GoodState s → parseArrayLoop (n + 1) s acc = some r → GoodState r.2 := by
      intro s acc r hs h
      rw [parseArrayLoop_succ] at h
      split at h
      · split at h
        · exact Option.noConfusion h
        · next rr s2 heq =>
          exact ihArL _ _ _ (goodState_skipWhitespace (ihN _ _ hs heq)) h
      · cases h
        exact goodState_advance hs
    have goodAr : ∀ s r, GoodState s → parseArray (n + 1) s = some r → GoodState r.2 := by
      intro s r hs h
      rw [parseArray_succ] at h
      exact ihArL _ _ _ (goodState_skipWhitespace hs) h
    have goodTL : ∀ tc s acc r, GoodState s → parseTypedArrayLoop (n + 1) tc s acc = some r → GoodState r.2 := by
      intro tc s acc r hs h
      rw [parseTypedArrayLoop_succ] at h
      split at h
      · split at h
        · split at h
          · exact Option.noConfusion h
          · next v s2 heq =>
            exact ihTL _ _ _ _ (goodState_skipWhitespace (ihA _ _ _ (goodState_advance hs) heq)) h
        · split at h
          · exact Option.noConfusion h
          · next v s2 heq =>
            exact ihTL _ _ _ _ (goodState_skipWhitespace (ihA _ _ _ hs heq)) h
      · cases h
        exact goodState_advance hs
    have goodT : ∀ s r, GoodState s → parseArrayTypeSpecifier (n + 1) s = some r → GoodState r.2 := by
      intro s r hs h
      have h1 : GoodState (advance s).2 := goodState_advance hs
      have h2 : GoodState (advance (advance s).2).2 := goodState_advance h1
      have h3 : GoodState (advance (advance (advance s).2).2).2 := goodState_advance h2
      have h4 : GoodState (skipWhitespace (advance (advance (advance s).2).2).2) :=
        goodState_skipWhitespace h3
      rw [parseArrayTypeSpecifier_succ] at h
      split at h
      · cases h
        exact goodState_addError h2 (goodErr_mk _ h2.1 h2.1)
      · split at h
        · cases h
          exact goodState_addError h3 (goodErr_mk _ h3.1 h3.1)
        · split at h
          · split at h
            · exact ihTL _ _ _ _ h4 h
            · cases h
              exact goodState_addError h4 (goodErr_mk _ h4.1 h4.1)
          · cases h
            exact goodState_addError h4 (goodErr_mk _ h4.1 h4.1)
    exact ⟨goodA, goodV, goodO, goodOL, goodAr, goodArL, goodT, goodTL, goodR, goodN⟩

/-- Claim C10: whenever parse completes by throwing, the thrown batch is the
    full list of recorded diagnostics, it is non-empty, and every diagnostic
    in it carries a 1-based line and column. -/
theorem c10_error_batch_nonempty_and_positioned
    (fuel : Nat) (input : List Char) (errs : List TSONParseError)
    (h : parse fuel input = some (.error errs)) :
    errs ≠ [] ∧ ∀ e ∈ errs, 1 ≤ e.cursor.line ∧ 1 ≤ e.cursor.column := by
  match fuel with
  | 0 => exact Option.noConfusion h
  | n + 1 =>
    rw [parse_succ] at h
    have hs0 : GoodState ⟨input, ⟨0, 1, 1⟩, []⟩ :=
      ⟨⟨Nat.le_refl 1, Nat.le_refl 1⟩, by intro e he; simp at he⟩
    have hs1 := goodState_skipWhitespace hs0
    cases hpn : parseNameOptionalValue n (skipWhitespace ⟨input, ⟨0, 1, 1⟩, []⟩) with
    | none => rw [hpn] at h; exact Option.noConfusion h
    | some rs =>
      obtain ⟨⟨nm?, v⟩, s2⟩ := rs
      have hgood := (parser_good n).2.2.2.2.2.2.2.2.2 _ _ hs1 hpn
      rw [hpn] at h
      have herr : s2.errors = errs ∧ s2.errors ≠ [] := by
        cases nm? with
        | some nm =>
          dsimp only at h
          by_cases he : s2.errors = []
          · rw [if_pos he] at h
            simp at h
          · rw [if_neg he] at h
            simp at h
            exact ⟨h, he⟩
        | none =>
          dsimp only at h
          by_cases he : s2.errors = []
          · rw [if_pos he] at h
            simp at h
          · rw [if_neg he] at h
            simp at h
            exact ⟨h, he⟩
      obtain ⟨heq, hne⟩ := herr
      subst heq
      refine ⟨hne, ?_⟩
      intro e he
      have := hgood.2 e he
      exact ⟨this.1.2, this.1.1⟩

/-- The diagnostic parse records for the empty input (the unexpected NUL of
    peeking past the end). -/
def c10WitnessErr : TSONParseError :=
  ⟨expectedMessage ['\x00'] parserKeysJoined, ⟨0, 1, 1⟩, some ⟨0, 1, 1⟩⟩

theorem c10_error_batch_witness :
    [c10WitnessErr] ≠ [] ∧
      ∀ e ∈ [c10WitnessErr], 1 ≤ e.cursor.line ∧ 1 ≤ e.cursor.column :=
  c10_error_batch_nonempty_and_positioned 5 [] [c10WitnessErr] (by decide)

/-! Claim C4, general form: bare members anywhere inside an object, followed
    by any character that can start neither a name nor a value. -/

theorem drop_add_of_drop : ∀ (nm : List Char) (inp : List Char) (pos : Nat) (x : List Char),
    inp.drop pos = nm ++ x → inp.drop (pos + nm.length) = x := by
  intro nm
  induction nm with
  | nil => intro inp pos x h; simpa using h
  | cons c t ih =>
    intro inp pos x h
    rw [List.cons_append] at h
    have h2 := drop_succ_of_drop _ _ _ _ h
    have h3 := ih inp (pos + 1) x h2
    rw [show pos + (c :: t).length = pos + 1 + t.length from by simp; omega]
    exact h3

theorem objGet_objSetKey : ∀ (o : JSObj) (k : List Char) (v : JSValue),
    objGet (objSetKey o k v) k = v
  | .nil, k, v => by simp [objSetKey, objGet]
  | .cons k0 v0 t, k, v => by
    unfold objSetKey
    by_cases hk : k0 = k
    · rw [if_pos hk]
      unfold objGet
      rw [if_pos hk]
    · rw [if_neg hk]
      unfold objGet
      rw [if_neg hk]
      exact objGet_objSetKey t k v

/-- The diagnostic parseVal records for a bare member: the unexpected
    character d at the cursor ⟨p, q, l⟩ reached right after the name. -/
def c4MemberDiag (d : Char) (p q l : Nat) : TSONParseError :=
  ⟨expectedMessage [d] parserKeysJoined, ⟨p, q, l⟩, some ⟨p, q, l⟩⟩

/-! Diagnostics are never discarded: every helper either leaves the error
    list unchanged or appends to it. -/

theorem advance_errors (s : PState) : (advance s).2.errors = s.errors := rfl

theorem skipWhitespaceAux_errors : ∀ (fuel : Nat) (s : PState),
    (skipWhitespaceAux fuel s).errors = s.errors := by
  intro fuel
  induction fuel with
  | zero => intro s; rfl
  | succ n ih =>
    intro s
    unfold skipWhitespaceAux
    dsimp only
    split
    · rw [ih, advance_errors]
    · rfl

theorem skipWhitespace_errors (s : PState) :
    (skipWhitespace s).errors = s.errors := skipWhitespaceAux_errors _ _

theorem parseNameAux_errors : ∀ (fuel : Nat) (s : PState),
    (parseNameAux fuel s).2.errors = s.errors := by
  intro fuel
  induction fuel with
  | zero => intro s; rfl
  | succ n ih =>
    intro s
    unfold parseNameAux
    dsimp only
    split
    · rw [ih, advance_errors]
    · rfl

theorem parseName_errors (s : PState) :
    (parseName s).2.errors = s.errors := parseNameAux_errors _ _

theorem scanNumberAux_errors : ∀ (fuel : Nat) (s : PState),
    (scanNumberAux fuel s).2.errors = s.errors := by
  intro fuel
  induction fuel with
  | zero => intro s; rfl
  | succ n ih =>
    intro s
    unfold scanNumberAux
    dsimp only
    split
    · rw [ih, advance_errors]
    · rfl

theorem scanNumberChars_errors (s : PState) :
    (scanNumberChars s).2.errors = s.errors := scanNumberAux_errors _ _

theorem advanceMultiple_errors : ∀ (n : Nat) (s : PState),
    (advanceMultiple n s).2.errors = s.errors := by
  intro n
  induction n with
  | zero => intro s; rfl
  | succ m ih =>
    intro s
    unfold advanceMultiple
    dsimp only
    rw [ih, advance_errors]

theorem parseStringScanAux_errors : ∀ (fuel : Nat) (sc : Cursor) (s : PState),
    s.errors <+: (parseStringScanAux fuel sc s).2.errors := by
  intro fuel
  induction fuel with
  | zero => intro sc s; exact List.prefix_rfl
  | succ n ih =>
    intro sc s
    unfold parseStringScanAux
    dsimp only
    split
    · split
      · dsimp only [addError]
        exact List.prefix_append _ _
      · split
        · have h := ih sc (advance (advance s).2).2
          rw [advance_errors, advance_errors] at h
          exact h
        · have h := ih sc (advance s).2
          rw [advance_errors] at h
          exact h
    · exact List.prefix_rfl

theorem parseString_errors (s : PState) :
    s.errors <+: (parseString s).2.errors := by
  unfold parseString
  have hscan := parseStringScanAux_errors (s.input.length + 1) (copyCursor s.cursor) s
  dsimp only
  split
  · next s2 heq =>
    have h2 : (parseStringScanAux (s.input.length + 1) (copyCursor s.cursor) s).2 = s2 :=
      congrArg Prod.snd heq
    rw [h2] at hscan
    exact hscan
  · next buf s2 heq =>
    have h2 : (parseStringScanAux (s.input.length + 1) (copyCursor s.cursor) s).2 = s2 :=
      congrArg Prod.snd heq
    rw [h2] at hscan
    exact hscan

theorem parseBoolean_errors (s : PState) :
    s.errors <+: (parseBoolean s).2.errors := by
  unfold parseBoolean
  dsimp only
  split
  · split
    · rw [advanceMultiple_errors, advance_errors]
    · dsimp only [addError]
      rw [advanceMultiple_errors, advance_errors]
      exact List.prefix_append _ _
  · split
    · split
      · rw [advanceMultiple_errors, advance_errors]
      · dsimp only [addError]
        rw [advanceMultiple_errors, advance_errors]
        exact List.prefix_append _ _
    · dsimp only [addError]
      rw [scanNumberChars_errors, advance_errors]
      exact List.prefix_append _ _

/-- No production ever discards diagnostics: whenever a production of the
    mutual parser family completes within its fuel, the incoming error list
    is a prefix of the outgoing one. -/
theorem parser_errors_mono : ∀ fuel : Nat,
    (∀ c s r, applyParser fuel c s = some r → s.errors <+: r.2.errors) ∧
    (∀ s r, parseVal fuel s = some r → s.errors <+: r.2.errors) ∧
    (∀ s r, parseObject fuel s = some r → s.errors <+: r.2.errors) ∧
    (∀ s acc r, parseObjectLoop fuel s acc = some r → s.errors <+: r.2.errors) ∧
    (∀ s r, parseArray fuel s = some r → s.errors <+: r.2.errors) ∧
    (∀ s acc r, parseArrayLoop fuel s acc = some r → s.errors <+: r.2.errors) ∧
    (∀ s r, parseArrayTypeSpecifier fuel s = some r → s.errors <+: r.2.errors) ∧
    (∀ tc s acc r, parseTypedArrayLoop fuel tc s acc = some r → s.errors <+: r.2.errors) ∧
    (∀ s r, parseNameRequiredValue fuel s = some r → s.errors <+: r.2.errors) ∧
    (∀ s r, parseNameOptionalValue fuel s = some r → s.errors <+: r.2.errors) := by
  intro fuel
  induction fuel with
  | zero =>
    refine ⟨?_, ?_, ?_, ?_, ?_, ?_, ?_, ?_, ?_, ?_⟩ <;>
      (intros; exact Option.noConfusion (by assumption))
  | succ n ih =>
    obtain ⟨ihA, ihV, ihO, ihOL, ihAr, ihArL, ihT, ihTL, ihR, ihN⟩ := ih
    have monoA : ∀ c s r, applyParser (n + 1) c s = some r → s.errors <+: r.2.errors := by
      intro c s r h
      rw [applyParser_succ] at h
      split at h
      · exact ihO s r h
      · split at h
        · exact ihAr s r h
        · split at h
          · exact ihT s r h
          · split at h
            · cases h; exact parseString_errors s
            · split at h
              · cases h
                have he : (parseIntMethod s).2.errors = s.errors := scanNumberChars_errors s
                rw [he]
              · split at h
                · cases h
                  have he : (parseFloatMethod s).2.errors = s.errors := scanNumberChars_errors s
                  rw [he]
                · split at h
                  · cases h; exact parseBoolean_errors s
                  · split at h
                    · cases h
                      have he : (parseNull s).2.errors = s.errors := advance_errors s
                      rw [he]
                    · exact Option.noConfusion h
    have monoV : ∀ s r, parseVal (n + 1) s = some r → s.errors <+: r.2.errors := by
      intro s r h
      rw [parseVal_succ] at h
      split at h
      · have h2 := ihA _ _ _ h
        rw [advance_errors] at h2
        exact h2
      · cases h
        dsimp only [addError]
        exact List.prefix_append _ _
    have monoR : ∀ s r, parseNameRequiredValue (n + 1) s = some r → s.errors <+: r.2.errors := by
      intro s r h
      rw [parseNameRequiredValue_succ] at h
      split at h
      · cases h
        dsimp only [addError]
        rw [parseName_errors]
        exact List.prefix_append _ _
      · split at h
        · exact Option.noConfusion h
        · next v s2 heq =>
          cases h
          have h2 := ihV _ _ heq
          rw [parseName_errors] at h2
          exact h2
    have monoN : ∀ s r, parseNameOptionalValue (n + 1) s = some r → s.errors <+: r.2.errors := by
      intro s r h
      rw [parseNameOptionalValue_succ] at h
      split at h
      · exact Option.noConfusion h
      · next v s2 heq =>
        cases h
        have h2 := ihV _ _ heq
        rw [parseName_errors] at h2
        exact h2
    have monoOL : ∀ s acc r, parseObjectLoop (n + 1) s acc = some r → s.errors <+: r.2.errors := by
      intro s acc r h
      rw [parseObjectLoop_succ] at h
      split at h
      · split at h
        · exact Option.noConfusion h
        · next rr s2 heq =>
          have h1 := ihR _ _ heq
          have h2 := ihOL _ _ _ h
          rw [skipWhitespace_errors] at h2
          exact h1.trans h2
      · cases h
        rw [advance_errors]
    have monoO : ∀ s r, parseObject (n + 1) s = some r → s.errors <+: r.2.errors := by
      intro s r h
      rw [parseObject_succ] at h
      have h2 := ihOL _ _ _ h
      rw [skipWhitespace_errors] at h2
      exact h2
    have monoArL : ∀ s acc r, parseArrayLoop (n + 1) s acc = some r → s.errors <+: r.2.errors := by
      intro s acc r h
      rw [parseArrayLoop_succ] at h
      split at h
      · split at h
        · exact Option.noConfusion h
        · next rr s2 heq =>
          have h1 := ihN _ _ heq
          have h2 := ihArL _ _ _ h
          rw [skipWhitespace_errors] at h2
          exact h1.trans h2
      · cases h
        rw [advance_errors]
    have monoAr : ∀ s r, parseArray (n + 1) s = some r → s.errors <+: r.2.errors := by
      intro s r h
      rw [parseArray_succ] at h
      have h2 := ihArL _ _ _ h
      rw [skipWhitespace_errors] at h2
      exact h2
    have monoTL : ∀ tc s acc r, parseTypedArrayLoop (n + 1) tc s acc = some r →
        s.errors <+: r.2.errors := by
      intro tc s acc r h
      rw [parseTypedArrayLoop_succ] at h
      split at h
      · split at h
        · split at h
          · exact Option.noConfusion h
          · next v s2 heq =>
            have h1 := ihA _ _ _ heq
            rw [advance_errors] at h1
            have h2 := ihTL _ _ _ _ h
            rw [skipWhitespace_errors] at h2
            exact h1.trans h2
        · split at h
          · exact Option.noConfusion h
          · next v s2 heq =>
            have h1 := ihA _ _ _ heq
            have h2 := ihTL _ _ _ _ h
            rw [skipWhitespace_errors] at h2
            exact h1.trans h2
      · cases h
        rw [advance_errors]
    have monoT : ∀ s r, parseArrayTypeSpecifier (n + 1) s = some r → s.errors <+: r.2.errors := by
      intro s r h
      rw [parseArrayTypeSpecifier_succ] at h
      split at h
      · cases h
        dsimp only [addError]
        rw [advance_errors, advance_errors]
        exact List.prefix_append _ _
      · split at h
        · cases h
          dsimp only [addError]
          rw [advance_errors, advance_errors, advance_errors]
          exact List.prefix_append _ _
        · split at h
          · split at h
            · have h2 := ihTL _ _ _ _ h
              rw [skipWhitespace_errors, advance_errors, advance_errors, advance_errors] at h2
              exact h2
            · cases h
              dsimp only [addError]
              rw [skipWhitespace_errors, advance_errors, advance_errors, advance_errors]
              exact List.prefix_append _ _
          · cases h
            dsimp only [addError]
            rw [skipWhitespace_errors, advance_errors, advance_errors, advance_errors]
            exact List.prefix_append _ _
    exact ⟨monoA, monoV, monoO, monoOL, monoAr, monoArL, monoT, monoTL, monoR, monoN⟩

/-- The member production on a bare Name followed by any character d that can
    start neither a name nor a value: whatever the cursor position and
    whatever diagnostics were already recorded, it returns the name with the
    null value and appends exactly the unexpected-character diagnostic
    positioned right after the name, consuming exactly the name. -/
theorem c4_member_spec (nm : List Char) (d : Char) (rest inp : List Char)
    (pos col line : Nat) (errs : List TSONParseError) (fuel : Nat)
    (hnm : nm ≠ [])
    (hmem : ∀ c ∈ nm, isNamePart c = true)
    (hd1 : isNamePart d = false)
    (hd2 : isParserKey d = false)
    (hdrop : inp.drop pos = nm ++ d :: rest)
    (hfuel : 2 ≤ fuel) :
    parseNameRequiredValue fuel ⟨inp, ⟨pos, col, line⟩, errs⟩ =
      some ((nm, .vnull),
        ⟨inp, ⟨pos + nm.length, col + nm.length, line⟩,
          errs ++ [c4MemberDiag d (pos + nm.length) (col + nm.length) line]⟩) := by
  obtain ⟨k, rfl⟩ : ∃ k, fuel = k + 2 := ⟨fuel - 2, by omega⟩
  have hpn := @parseName_spec inp pos col line errs nm (d :: rest) hdrop hmem
    (by intro c hc; rw [List.head?_cons] at hc; injection hc with hc; rw [← hc]; exact hd1)
  rw [parseNameRequiredValue_succ, hpn]
  dsimp only
  rw [if_neg hnm]
  have hdrop2 : inp.drop (pos + nm.length) = d :: rest := drop_add_of_drop nm inp pos _ hdrop
  have hpk : peek (⟨inp, ⟨pos + nm.length, col + nm.length, line⟩, errs⟩ : PState) = d :=
    peek_of_drop hdrop2
  rw [parseVal_succ, hpk]
  rw [if_neg (by rw [hd2]; exact Bool.false_ne_true)]
  rfl

/-- Whenever the object loop is entered at a bare member (any partially built
    object, any prior diagnostics) and runs to completion, the final error
    list is non-empty. -/
theorem c4_loop_fails (nm : List Char) (d : Char) (rest inp : List Char)
    (pos col line : Nat) (errs : List TSONParseError) (acc : JSObj)
    (fuel : Nat) (r : JSValue × PState)
    (hnm : nm ≠ [])
    (hmem : ∀ c ∈ nm, isNamePart c = true)
    (hd1 : isNamePart d = false)
    (hd2 : isParserKey d = false)
    (hdrop : inp.drop pos = nm ++ d :: rest)
    (h : parseObjectLoop fuel ⟨inp, ⟨pos, col, line⟩, errs⟩ acc = some r) :
    r.2.errors ≠ [] := by
  obtain ⟨c0, nm0, rfl⟩ := List.exists_cons_of_ne_nil hnm
  have hc0 : isNamePart c0 = true := hmem c0 (by simp)
  have hd' : inp.drop pos = c0 :: (nm0 ++ d :: rest) := by rw [hdrop]; rfl
  have hpk : peek (⟨inp, ⟨pos, col, line⟩, errs⟩ : PState) = c0 := peek_of_drop hd'
  have hae : atEnd (⟨inp, ⟨pos, col, line⟩, errs⟩ : PState) = false := atEnd_false_of_drop hd'
  have hne : peek (⟨inp, ⟨pos, col, line⟩, errs⟩ : PState) ≠ '\x7d' := by
    rw [hpk]; exact isNamePart_ne hc0 (by decide)
  have hpn := @parseName_spec inp pos col line errs (c0 :: nm0) (d :: rest) hdrop hmem
    (by intro c hc; rw [List.head?_cons] at hc; injection hc with hc; rw [← hc]; exact hd1)
  match fuel, h with
  | 0, h => exact Option.noConfusion h
  | 1, h =>
    rw [parseObjectLoop_succ, if_pos ⟨hne, hae⟩] at h
    exact Option.noConfusion h
  | 2, h =>
    rw [parseObjectLoop_succ, if_pos ⟨hne, hae⟩] at h
    have hp1 : parseNameRequiredValue 1 ⟨inp, ⟨pos, col, line⟩, errs⟩ = none := by
      rw [parseNameRequiredValue_succ, hpn]
      dsimp only
      rw [if_neg hnm]
      rfl
    rw [hp1] at h
    exact Option.noConfusion h
  | f + 3, h =>
    rw [parseObjectLoop_succ, if_pos ⟨hne, hae⟩] at h
    rw [c4_member_spec (c0 :: nm0) d rest inp pos col line errs (f + 2) hnm hmem hd1 hd2 hdrop
      (by omega)] at h
    dsimp only at h
    have hmono := (parser_errors_mono (f + 2)).2.2.2.1 _ _ _ h
    rw [skipWhitespace_errors] at hmono
    intro hcon
    rw [hcon] at hmono
    have hnil := List.prefix_nil.mp hmono
    simp at hnil

/-- Document level: a root document whose object opens with a bare member —
    under any all-name-character document name, with anything at all after
    the offending character — never decodes successfully: whenever parse
    completes, it returns a thrown non-empty batch. -/
theorem c4_doc_fails (docName nm : List Char) (d : Char) (rest inp : List Char)
    (hdoc : ∀ c ∈ docName, isNamePart c = true)
    (hnm : nm ≠ [])
    (hmem : ∀ c ∈ nm, isNamePart c = true)
    (hd1 : isNamePart d = false)
    (hd2 : isParserKey d = false)
    (hinp : inp = docName ++ '\x7b' :: (nm ++ d :: rest)) :
    ∀ (fuelD : Nat) (res : Except (List TSONParseError) JSValue),
      parse fuelD inp = some res → ∃ es, res = .error es ∧ es ≠ [] := by
  obtain ⟨c0, nm0, rfl⟩ := List.exists_cons_of_ne_nil hnm
  have hdrop0 : inp.drop 0 = docName ++ ('\x7b' :: ((c0 :: nm0) ++ d :: rest)) := by
    rw [List.drop_zero, hinp]
  have hs1 : skipWhitespace (⟨inp, ⟨0, 1, 1⟩, []⟩ : PState) = ⟨inp, ⟨0, 1, 1⟩, []⟩ := by
    apply skipWhitespace_noop
    cases hdn : docName with
    | nil =>
      have hpk : peek (⟨inp, ⟨0, 1, 1⟩, []⟩ : PState) = '\x7b' :=
        peek_of_drop (by rw [hdrop0, hdn]; rfl)
      rw [hpk]; decide
    | cons e0 t0 =>
      have hpk : peek (⟨inp, ⟨0, 1, 1⟩, []⟩ : PState) = e0 :=
        peek_of_drop (by rw [hdrop0, hdn]; rfl)
      rw [hpk]
      exact isNamePart_not_ws (hdoc e0 (by rw [hdn]; simp))
  have hpname : parseName (⟨inp, ⟨0, 1, 1⟩, []⟩ : PState) =
      (docName, ⟨inp, ⟨0 + docName.length, 1 + docName.length, 1⟩, []⟩) :=
    @parseName_spec inp 0 1 1 [] docName ('\x7b' :: ((c0 :: nm0) ++ d :: rest)) hdrop0 hdoc
      (by intro c hc; rw [List.head?_cons] at hc; injection hc with hc; rw [← hc]; decide)
  have hdropA : inp.drop (0 + docName.length) = '\x7b' :: ((c0 :: nm0) ++ d :: rest) :=
    drop_add_of_drop docName inp 0 _ hdrop0
  have hdropB : inp.drop (0 + docName.length + 1) = (c0 :: nm0) ++ d :: rest :=
    drop_succ_of_drop _ _ _ _ hdropA
  have hpkA : peek (⟨inp, ⟨0 + docName.length, 1 + docName.length, 1⟩, []⟩ : PState) = '\x7b' :=
    peek_of_drop hdropA
  have hadv : advance (⟨inp, ⟨0 + docName.length, 1 + docName.length, 1⟩, []⟩ : PState) =
      (some '\x7b', ⟨inp, ⟨0 + docName.length + 1, 1 + docName.length + 1, 1⟩, []⟩) :=
    advance_of_drop hdropA (by decide)
  have hdropB' : inp.drop (0 + docName.length + 1) = c0 :: (nm0 ++ d :: rest) := by
    rw [hdropB]; rfl
  have hpkB : peek (⟨inp, ⟨0 + docName.length + 1, 1 + docName.length + 1, 1⟩, []⟩ : PState) =
      c0 := peek_of_drop hdropB'
  have hws : skipWhitespace
        (⟨inp, ⟨0 + docName.length + 1, 1 + docName.length + 1, 1⟩, []⟩ : PState) =
      ⟨inp, ⟨0 + docName.length + 1, 1 + docName.length + 1, 1⟩, []⟩ := by
    apply skipWhitespace_noop
    rw [hpkB]
    exact isNamePart_not_ws (hmem c0 (by simp))
  intro fuelD res h
  match fuelD, h with
  | 0, h => exact Option.noConfusion h
  | f + 1, h =>
    rw [parse_succ, hs1] at h
    match f, h with
    | 0, h => exact Option.noConfusion h
    | f1 + 1, h =>
      rw [parseNameOptionalValue_succ, hpname] at h
      dsimp only at h
      match f1, h with
      | 0, h => exact Option.noConfusion h
      | f2 + 1, h =>
        have hVA : parseVal (f2 + 1)
              (⟨inp, ⟨0 + docName.length, 1 + docName.length, 1⟩, []⟩ : PState) =
            applyParser f2 '\x7b'
              ⟨inp, ⟨0 + docName.length + 1, 1 + docName.length + 1, 1⟩, []⟩ := by
          rw [parseVal_succ, hpkA, hadv]
          rfl
        rw [hVA] at h
        match f2, h with
        | 0, h => exact Option.noConfusion h
        | f3 + 1, h =>
          rw [applyParser_brace] at h
          match f3, h with
          | 0, h => exact Option.noConfusion h
          | f4 + 1, h =>
            rw [parseObject_succ, hws] at h
            cases hloop : parseObjectLoop f4
                ⟨inp, ⟨0 + docName.length + 1, 1 + docName.length + 1, 1⟩, []⟩ .nil with
            | none =>
              rw [hloop] at h
              exact Option.noConfusion h
            | some rr =>
              obtain ⟨v, s2⟩ := rr
              rw [hloop] at h
              dsimp only at h
              have herr : s2.errors ≠ [] :=
                c4_loop_fails (c0 :: nm0) d rest inp (0 + docName.length + 1)
                  (1 + docName.length + 1) 1 [] .nil f4 (v, s2) hnm hmem hd1 hd2 hdropB hloop
              by_cases hdn : docName = []
              · rw [if_pos hdn] at h
                dsimp only at h
                rw [if_neg herr] at h
                injection h with h2
                exact ⟨s2.errors, h2.symm, herr⟩
              · rw [if_neg hdn] at h
                dsimp only at h
                rw [if_neg herr] at h
                injection h with h2
                exact ⟨s2.errors, h2.symm, herr⟩

/-- Claim C4 as amended: for every object member consisting of a bare Name
    followed directly by a character that can start neither a name nor a
    value (separators such as `,` or `;`, closing brackets, whitespace, ...),
    at any position, with any diagnostics already recorded: the member
    production returns the name with the null value and appends exactly one
    unexpected-character diagnostic positioned right after the name; the
    object loop at such a member stores null at that key in the partially
    built object — whatever was built before — and continues past the member
    with the diagnostic kept; reading the key back from the updated partial
    object yields null; the diagnostic batch is then non-empty; and a root
    document whose object opens with such a member, under any document name,
    never decodes successfully: every completed parse returns a thrown
    non-empty batch. -/
theorem c4_amended_bare_name_yields_null_and_diagnostic
    (nm : List Char) (d : Char) (rest inp : List Char)
    (pos col line : Nat) (errs : List TSONParseError) (acc : JSObj) (fuel : Nat)
    (docName docInp : List Char)
    (hnm : nm ≠ [])
    (hmem : ∀ c ∈ nm, isNamePart c = true)
    (hd1 : isNamePart d = false)
    (hd2 : isParserKey d = false)
    (hdrop : inp.drop pos = nm ++ d :: rest)
    (hfuel : 2 ≤ fuel)
    (hdoc : ∀ c ∈ docName, isNamePart c = true)
    (hdocInp : docInp = docName ++ '\x7b' :: (nm ++ d :: rest)) :
    parseNameRequiredValue fuel ⟨inp, ⟨pos, col, line⟩, errs⟩ =
      some ((nm, .vnull),
        ⟨inp, ⟨pos + nm.length, col + nm.length, line⟩,
          errs ++ [c4MemberDiag d (pos + nm.length) (col + nm.length) line]⟩) ∧
    parseObjectLoop (fuel + 1) ⟨inp, ⟨pos, col, line⟩, errs⟩ acc =
      parseObjectLoop fuel
        (skipWhitespace ⟨inp, ⟨pos + nm.length, col + nm.length, line⟩,
          errs ++ [c4MemberDiag d (pos + nm.length) (col + nm.length) line]⟩)
        (objSetKey acc nm .vnull) ∧
    objGet (objSetKey acc nm .vnull) nm = .vnull ∧
    errs ++ [c4MemberDiag d (pos + nm.length) (col + nm.length) line] ≠ [] ∧
    ∀ (fuelD : Nat) (res : Except (List TSONParseError) JSValue),
      parse fuelD docInp = some res → ∃ es, res = .error es ∧ es ≠ [] := by
  refine ⟨c4_member_spec nm d rest inp pos col line errs fuel hnm hmem hd1 hd2 hdrop hfuel,
    ?_, objGet_objSetKey acc nm .vnull, by simp,
    c4_doc_fails docName nm d rest docInp hdoc hnm hmem hd1 hd2 hdocInp⟩
  obtain ⟨c0, nm0, rfl⟩ := List.exists_cons_of_ne_nil hnm
  have hd' : inp.drop pos = c0 :: (nm0 ++ d :: rest) := by rw [hdrop]; rfl
  have hpk : peek (⟨inp, ⟨pos, col, line⟩, errs⟩ : PState) = c0 := peek_of_drop hd'
  have hae : atEnd (⟨inp, ⟨pos, col, line⟩, errs⟩ : PState) = false := atEnd_false_of_drop hd'
  have hne : peek (⟨inp, ⟨pos, col, line⟩, errs⟩ : PState) ≠ '\x7d' := by
    rw [hpk]
    exact isNamePart_ne (hmem c0 (by simp)) (by decide)
  rw [parseObjectLoop_succ, if_pos ⟨hne, hae⟩]
  rw [c4_member_spec (c0 :: nm0) d rest inp pos col line errs fuel hnm hmem hd1 hd2 hdrop hfuel]

theorem c4_amended_bare_name_witness :
    parseNameRequiredValue 2 ⟨("name,b#1\x7d").toList, ⟨0, 1, 1⟩, []⟩ =
      some (((("name").toList), .vnull),
        ⟨("name,b#1\x7d").toList, ⟨4, 5, 1⟩, [c4MemberDiag ',' 4 5 1]⟩) ∧
    parseObjectLoop 3 ⟨("name,b#1\x7d").toList, ⟨0, 1, 1⟩, []⟩ .nil =
      parseObjectLoop 2
        (skipWhitespace ⟨("name,b#1\x7d").toList, ⟨4, 5, 1⟩, [c4MemberDiag ',' 4 5 1]⟩)
        (objSetKey .nil (("name").toList) .vnull) ∧
    objGet (objSetKey .nil (("name").toList) .vnull) (("name").toList) = .vnull ∧
    [c4MemberDiag ',' 4 5 1] ≠ [] ∧
    ∀ (fuelD : Nat) (res : Except (List TSONParseError) JSValue),
      parse fuelD (("a\x7bname,b#1\x7d").toList) = some res →
        ∃ es, res = .error es ∧ es ≠ [] :=
  c4_amended_bare_name_yields_null_and_diagnostic (("name").toList) ',' (("b#1\x7d").toList)
    (("name,b#1\x7d").toList) 0 1 1 [] .nil 2 (("a").toList) (("a\x7bname,b#1\x7d").toList)
    (by decide) (by decide) (by decide) (by decide) (by decide) (by decide) (by decide) (by decide)
